import Mathlib

/-!
Verification of the core logic of the extracurricular-activities planner
(`src/ActivitiesPlanner.tsx`).  The data model, the grade-eligibility engine,
the time-overlap engine, the financial engine, the conflict engine and the
plan mutations are shallowly embedded below, translated from the TypeScript
source.  Money is modelled with rational numbers (all monetary values in the
program are small integers or an integer divided by 3, where binary floating
point and exact arithmetic agree on every value the claims mention).  Maps
keyed by strings are modelled as functions `String → _` (JavaScript `Map`
with string keys) or as association lists (plain objects).
-/

/-! ## Data model (source lines 213–283) -/

inductive Day where
  | Monday | Tuesday | Wednesday | Thursday | Friday
deriving DecidableEq

inductive Slot where
  | Midday | Afternoon
deriving DecidableEq

inductive Period where
  | month | term
deriving DecidableEq

structure Activity where
  id : String
  name : String
  day : Day
  slot : Slot
  time : Option String := none
  grades : String
  price : Rat
  period : Period
  provider : Option String := none
  location : Option String := none
  notes : Option String := none
  materialsFee : Option Rat := none
  materialsKey : Option String := none
  bundleKey : Option String := none
deriving DecidableEq

/-- The nine-point grade scale `I3 … 6th` (source line 237). -/
inductive GradeLevel where
  | I3 | I4 | I5 | g1st | g2nd | g3rd | g4th | g5th | g6th
deriving DecidableEq

structure Kid where
  id : String
  name : String
  color : String
  grade : GradeLevel
deriving DecidableEq

structure PlanState where
  kids : List Kid
  assignments : List (String × List String)
deriving DecidableEq

/-- Rank of a (valid) grade, `gradeOrder` at source line 240 applied to a
`GradeLevel` key. -/
def gradeRank : GradeLevel → Int
  | .I3 => -2
  | .I4 => -1
  | .I5 => 0
  | .g1st => 1
  | .g2nd => 2
  | .g3rd => 3
  | .g4th => 4
  | .g5th => 5
  | .g6th => 6

/-- The string spelled by a `GradeLevel` value (the keys of `gradeOrder`). -/
def gradeKey : GradeLevel → String
  | .I3 => "I3"
  | .I4 => "I4"
  | .I5 => "I5"
  | .g1st => "1st"
  | .g2nd => "2nd"
  | .g3rd => "3rd"
  | .g4th => "4th"
  | .g5th => "5th"
  | .g6th => "6th"

/-- Lookup in the `gradeOrder` record (source line 240) by an arbitrary string
key; `none` models the JavaScript `undefined` produced by a key that is not a
valid grade (such as the `"1th"` that `normalizeGradeToken` can emit). -/
def gradeOrder (g : String) : Option Int :=
  if g = "I3" then some (-2)
  else if g = "I4" then some (-1)
  else if g = "I5" then some 0
  else if g = "1st" then some 1
  else if g = "2nd" then some 2
  else if g = "3rd" then some 3
  else if g = "4th" then some 4
  else if g = "5th" then some 5
  else if g = "6th" then some 6
  else none

/-! ## String helpers shared by the engines

JavaScript `String.prototype.split` with a single-character class regex
keeps empty pieces and always yields (number of delimiters + 1) pieces;
`splitBy` reproduces that. -/

def splitBy (p : Char → Bool) : List Char → List (List Char)
  | [] => [[]]
  | c :: r =>
    if p c then [] :: splitBy p r
    else
      match splitBy p r with
      | [] => [[c]]
      | h :: t => (c :: h) :: t

/-- Split on the character class `[–-]` (en dash or hyphen), used both by the
grade-range parsing (source line 255) and `parseTimeRange` (line 304). -/
def splitDash (cs : List Char) : List (List Char) :=
  splitBy (fun c => c = '–' || c = '-') cs

/-- Split on `'/'` (source lines 258 and 261). -/
def splitSlash (cs : List Char) : List (List Char) :=
  splitBy (fun c => c = '/') cs

def isWsChar (c : Char) : Bool :=
  c = ' ' || c = '\t' || c = '\n' || c = '\r'

/-- JavaScript `String.prototype.trim` (whitespace at both ends). -/
def trimStr (s : String) : String :=
  String.mk (((s.toList.dropWhile isWsChar).reverse.dropWhile isWsChar).reverse)

/-- Scan for the first `')'` not preceded by a newline, returning the suffix
after it; models the lazy body of the regex `\(.*?\)` whose `.` does not
cross a newline. -/
def dropParen : List Char → Option (List Char)
  | [] => none
  | c :: r => if c = ')' then some r else if c = '\n' then none else dropParen r

/-- Worker for `stripParens`, structurally recursive on a fuel that the
wrapper sets to the list length (every step consumes at least one character,
so the fuel never runs out). -/
def stripParensF : Nat → List Char → List Char
  | 0, cs => cs
  | _, [] => []
  | fuel + 1, c :: r =>
    if c = '(' then
      match dropParen r with
      | some r2 => stripParensF fuel r2
      | none => c :: stripParensF fuel r
    else c :: stripParensF fuel r

/-- Global replacement of the lazy parenthetical regex `\(.*?\)` by the empty
string (source line 250): every `'('` that has a matching `')'` ahead of it
(before a newline) is removed together with everything up to that `')'`;
an unmatched `'('` is kept. -/
def stripParens (cs : List Char) : List Char :=
  stripParensF cs.length cs

def isWordChar (c : Char) : Bool :=
  c.isAlpha || c.isDigit || c = '_'

def consHead (c : Char) : List (List Char) → List (List Char)
  | [] => [[c]]
  | h :: t => (c :: h) :: t

def isGradeDelim (c : Char) : Bool :=
  c = ',' || c = ';' || c = '&'

/-- Whether the word `and` (case-insensitive) stands at the current position,
both word boundaries `\b` included: `prev` is the character before the
position (`none` at the start of the string) and `next` the one after the
word (`none` at the end). -/
def andWordAt (c n d : Char) (prev next : Option Char) : Bool :=
  (c = 'a' || c = 'A') && (n = 'n' || n = 'N') && (d = 'd' || d = 'D')
    && (match prev with | none => true | some pc => !isWordChar pc)
    && (match next with | none => true | some nc => !isWordChar nc)

/-- Split on the regex `[,;&]|\band\b` (case-insensitive), source line 251.
The scanner carries the previous character so the word boundary `\b` before
`and` can be tested; the boundary after it looks at the next character.
Alternation order follows the regex: the character class is tried before the
word `and` at each position. -/
def gradeDelimSplit (prev : Option Char) : List Char → List (List Char)
  | [] => [[]]
  | [c] =>
    if isGradeDelim c then [[], []] else [[c]]
  | [c, x] =>
    if isGradeDelim c then [] :: gradeDelimSplit (some c) [x]
    else consHead c (gradeDelimSplit (some c) [x])
  | c :: n :: d :: rest =>
    if isGradeDelim c then [] :: gradeDelimSplit (some c) (n :: d :: rest)
    else if andWordAt c n d prev rest.head? then [] :: gradeDelimSplit (some d) rest
    else consHead c (gradeDelimSplit (some c) (n :: d :: rest))

/-! ## Grade Eligibility Engine (source lines 240–271) -/

/-- Whether the two characters spell one of the ordinal suffixes
`st|nd|rd|th`, case-insensitively (source line 245). -/
def ordSuffix (a b : Char) : Bool :=
  (a.toLower = 's' && b.toLower = 't') || (a.toLower = 'n' && b.toLower = 'd')
    || (a.toLower = 'r' && b.toLower = 'd') || (a.toLower = 't' && b.toLower = 'h')

/-- Anchored matching of the trimmed token's characters against
`^I([3-5])$` (case-insensitive), then `^([1-6])(st|nd|rd|th)$`
(case-insensitive), rebuilding the token with a capital `I` or a lowercased
suffix. -/
def normalizeCore : List Char → Option String
  | [i, d] =>
    if (i = 'I' || i = 'i') && ('3' ≤ d && d ≤ '5') then some (String.mk ['I', d]) else none
  | [d, a, b] =>
    if ('1' ≤ d && d ≤ '6') && ordSuffix a b then some (String.mk [d, a.toLower, b.toLower])
    else none
  | _ => none

/-- `normalizeGradeToken` (source lines 241–248): trim, then the two
anchored regexes.  Note the result string is not checked to be a valid
grade: `"1th"` is returned as-is (and later fails the `gradeOrder`
lookup). -/
def normalizeGradeToken (s : String) : Option String :=
  normalizeCore (trimStr s).toList

/-- Minimum of a nonempty list of integers given as head and tail
(`Math.min(...)` over at least one value). -/
def minList (x : Int) : List Int → Int
  | [] => x
  | y :: r => minList (min x y) r

/-- JavaScript truth value of `kidVal >= Math.min(...ranks) && kidVal <= end`
(source lines 264–266): `Math.min()` of an empty spread is `Infinity`, any
`undefined` argument makes it `NaN`, and an `undefined` end makes the second
comparison false — all three yield `false`. -/
def jsRangeTest (ranks : List (Option Int)) (endv : Option Int) (kidVal : Int) : Bool :=
  match endv with
  | none => false
  | some e =>
    if ranks.isEmpty then false
    else if ranks.any (fun o => o.isNone) then false
    else
      match ranks.filterMap id with
      | [] => false
      | v :: vs => decide (minList v vs ≤ kidVal) && decide (kidVal ≤ e)

/-- The clauses of a grade expression: strip parentheticals, split on the
delimiters, trim, drop empty pieces (source lines 250–251). -/
def partsOf (grades : String) : List String :=
  ((gradeDelimSplit none (stripParens grades.toList)).map
    (fun cs => trimStr (String.mk cs))).filter (fun s => s ≠ "")

/-- Evaluation of one clause against a child's rank (the body of the `for`
loop at source lines 254–268). -/
def partMatches (kidVal : Int) (part : String) : Bool :=
  match splitDash part.toList with
  | [single] =>
    (((splitSlash single).map String.mk).filterMap normalizeGradeToken).any
      (fun g => gradeOrder g = some kidVal)
  | [l, r] =>
    match normalizeGradeToken (String.mk r) with
    | none => false
    | some rt =>
      let leftAlts := ((splitSlash l).map String.mk).filterMap normalizeGradeToken
      jsRangeTest (leftAlts.map gradeOrder) (gradeOrder rt) kidVal
  | _ => false

/-- `isKidEligibleFor` (source lines 249–271). -/
def isKidEligibleFor (activity : Activity) (kid : Kid) : Bool :=
  let parts := partsOf activity.grades
  let kidVal := gradeRank kid.grade
  if parts.isEmpty then true
  else parts.any (partMatches kidVal)

/-- A grade expression all of whose dash- and slash-separated tokens inside
every clause are unrecognized by `normalizeGradeToken` — the "entirely
unparseable" expressions the spec speaks about. -/
def allTokensUnparseable (grades : String) : Bool :=
  (partsOf grades).all fun part =>
    (splitDash part.toList).all fun seg =>
      ((splitSlash seg).map String.mk).all fun tok =>
        (normalizeGradeToken tok).isNone

/-! ## Time-Overlap Engine (source lines 292–312) -/

def digitVal (c : Char) : Nat := c.toNat - 48

def isTimeSep (c : Char) : Bool := c = ':' || c = 'h' || c = '.'

/-- The regex `(\d{1,2})[:h.](\d{2})` tried at the current position with a
two-digit hour (the greedy first attempt of `\d{1,2}`). -/
def matchTime2 : List Char → Option (Nat × Nat)
  | a :: b :: s :: d :: e :: _ =>
    if a.isDigit && b.isDigit && isTimeSep s && d.isDigit && e.isDigit then
      some (10 * digitVal a + digitVal b, 10 * digitVal d + digitVal e)
    else none
  | _ => none

/-- The same regex tried at the current position with a one-digit hour (the
backtracked second attempt). -/
def matchTime1 : List Char → Option (Nat × Nat)
  | a :: s :: d :: e :: _ =>
    if a.isDigit && isTimeSep s && d.isDigit && e.isDigit then
      some (digitVal a, 10 * digitVal d + digitVal e)
    else none
  | _ => none

def matchTimeAt (cs : List Char) : Option (Nat × Nat) :=
  match matchTime2 cs with
  | some v => some v
  | none => matchTime1 cs

/-- Leftmost regex match: scan positions left to right, at each one trying
the greedy alternative first (JavaScript `String.prototype.match` without the
global flag). -/
def searchTime : List Char → Option (Nat × Nat)
  | [] => none
  | c :: rest =>
    match matchTimeAt (c :: rest) with
    | some v => some v
    | none => searchTime rest

/-- `parseMinutes` (source lines 292–299): first `(\d{1,2})[:h.](\d{2})`
match anywhere in the token, converted to `hh * 60 + mm` with no range
check on either component. -/
def parseMinutes (t : String) : Option Nat :=
  (searchTime t.toList).map fun hm => hm.1 * 60 + hm.2

/-- `parseTimeRange` (source lines 301–310): an absent or empty (falsy)
string yields `null`; otherwise the string must split into exactly two
pieces around a hyphen/en-dash and both pieces must parse as minutes. -/
def parseTimeRange (range : Option String) : Option (Nat × Nat) :=
  match range with
  | none => none
  | some r =>
    if r = "" then none
    else
      match splitDash r.toList with
      | [p1, p2] =>
        match parseMinutes (trimStr (String.mk p1)), parseMinutes (trimStr (String.mk p2)) with
        | some a, some b => some (a, b)
        | _, _ => none
      | _ => none

/-- `overlap` (source line 312), half-open interval intersection test. -/
def overlap (a b : Nat × Nat) : Bool :=
  decide (max a.1 b.1 < min a.2 b.2)

/-! ## Activities catalog (source lines 319–382) -/

def ACTIVITIES : List Activity := [
  { id := "m_en_i4-2_mon", name := "English (UNICOR)", day := .Monday, slot := .Midday,
    time := some "12:30–13:30", grades := "I4/I5–2nd", price := 58, period := .month,
    provider := some "UNICOR Languages", notes := some "2×/week (Mon+Wed)",
    materialsFee := some 40, materialsKey := some "unicor-english" },
  { id := "m_theatre_3-6_mon", name := "Theatre (Núria Granell)", day := .Monday, slot := .Midday,
    time := some "12:30–13:30", grades := "3rd–6th", price := 36, period := .month },
  { id := "m_en_3-6_tue", name := "English (UNICOR)", day := .Tuesday, slot := .Midday,
    time := some "12:30–13:30", grades := "3rd–6th", price := 58, period := .month,
    provider := some "UNICOR Languages", notes := some "2×/week (Tue+Thu)",
    materialsFee := some 40, materialsKey := some "unicor-english" },
  { id := "m_chess_1-2_tue", name := "Chess", day := .Tuesday, slot := .Midday,
    time := some "12:30–13:30", grades := "1st–2nd", price := 75, period := .term },
  { id := "m_rhythmic_tue", name := "Rhythmic Gymnastics", day := .Tuesday, slot := .Midday,
    time := some "12:30–13:30", grades := "I4/I5–6th", price := 44, period := .month,
    notes := some "2×/week (Tue+Thu)", provider := some "Club Rítmica Sitges-Garraf" },
  { id := "m_taijitsu_g1_tue", name := "Tai-Jitsu (Group 1)", day := .Tuesday, slot := .Midday,
    time := some "12:30–13:30", grades := "3rd–6th", price := 28, period := .month,
    provider := some "Mari Carmen Vila" },
  { id := "m_en_i4-2_wed", name := "English (UNICOR)", day := .Wednesday, slot := .Midday,
    time := some "12:30–13:30", grades := "I4/I5–2nd", price := 58, period := .month,
    provider := some "UNICOR Languages", notes := some "2×/week (Mon+Wed)",
    materialsFee := some 40, materialsKey := some "unicor-english" },
  { id := "m_chess_3-6_wed", name := "Chess", day := .Wednesday, slot := .Midday,
    time := some "12:30–13:30", grades := "3rd–6th", price := 75, period := .term },
  { id := "m_hiphop_wed", name := "Hip Hop", day := .Wednesday, slot := .Midday,
    time := some "12:30–13:30", grades := "1st–6th", price := 28, period := .month,
    provider := some "Anna Batista" },
  { id := "m_taijitsu_g2_wed", name := "Tai-Jitsu (Group 2)", day := .Wednesday, slot := .Midday,
    time := some "12:30–13:30", grades := "I4/I5", price := 28, period := .month,
    provider := some "Mari Carmen Vila" },
  { id := "m_taijitsu_g3_wed", name := "Tai-Jitsu (Group 3)", day := .Wednesday, slot := .Midday,
    time := some "12:30–13:30", grades := "1st–2nd", price := 28, period := .month,
    provider := some "Mari Carmen Vila" },
  { id := "m_art_thu", name := "Creative Art", day := .Thursday, slot := .Midday,
    time := some "12:30–13:30", grades := "I4/I5 (G1) & 1st–3rd (G2)", price := 78, period := .term,
    provider := some "Irene Gil", materialsFee := some 12, materialsKey := some "creative-art-materials" },
  { id := "m_en_3-6_thu", name := "English (UNICOR)", day := .Thursday, slot := .Midday,
    time := some "12:30–13:30", grades := "3rd–6th", price := 58, period := .month,
    provider := some "UNICOR Languages", notes := some "2×/week (Tue+Thu)",
    materialsFee := some 40, materialsKey := some "unicor-english" },
  { id := "m_robotics_thu", name := "Robotics", day := .Thursday, slot := .Midday,
    time := some "12:30–13:30", grades := "1st–6th", price := 48, period := .month,
    provider := some "Gerard Tristante" },
  { id := "m_rhythmic_thu", name := "Rhythmic Gymnastics", day := .Thursday, slot := .Midday,
    time := some "12:30–13:30", grades := "I4/I5–6th", price := 44, period := .month,
    notes := some "2×/week (Tue+Thu)", provider := some "Club Rítmica Sitges-Garraf" },
  { id := "m_comic_fri", name := "Comic & Manga", day := .Friday, slot := .Midday,
    time := some "12:30–13:30", grades := "3rd–6th", price := 33, period := .month,
    provider := some "Jordi Inglada", notes := some "Only 12:30–13:30 shift" },
  { id := "m_theatre_tracart_fri", name := "Theatre (TRACART)", day := .Friday, slot := .Midday,
    time := some "12:30–13:30", grades := "I4/I5–2nd", price := 36, period := .month },
  { id := "a_psy_mo", name := "Psychomotricity", day := .Monday, slot := .Afternoon,
    time := some "16:30–17:45", grades := "I3–I5", price := 75, period := .term,
    bundleKey := some "psychomotricity" },
  { id := "a_cooking_mo", name := "Creative Cooking", day := .Monday, slot := .Afternoon,
    time := some "16:30–17:45", grades := "1st–6th", price := 45, period := .month },
  { id := "a_futsal_mo", name := "Futsal", day := .Monday, slot := .Afternoon,
    time := some "16:30–17:45", grades := "1st–6th", price := 75, period := .term },
  { id := "a_acogida_mo", name := "Acogida", day := .Monday, slot := .Afternoon,
    time := some "16:30–17:30", grades := "I4–6th", price := 35, period := .month },
  { id := "a_swim_tu", name := "Swimming", day := .Tuesday, slot := .Afternoon,
    time := some "16:30–17:45", grades := "I3–6th", price := 147, period := .term,
    location := some "Municipal Pool (Sitges)" },
  { id := "a_padel_tu", name := "Padel", day := .Tuesday, slot := .Afternoon,
    time := some "16:30–17:45", grades := "1st–6th", price := 147, period := .term,
    location := some "Municipal Pool (Sitges)" },
  { id := "a_basket_tu", name := "Basketball", day := .Tuesday, slot := .Afternoon,
    time := some "16:30–17:45", grades := "1st–6th", price := 75, period := .term },
  { id := "a_french_tu", name := "French (UNICOR)", day := .Tuesday, slot := .Afternoon,
    time := some "16:30–17:45", grades := "I4/I5–6th", price := 36, period := .month,
    provider := some "UNICOR Languages", materialsFee := some 20, materialsKey := some "unicor-french" },
  { id := "a_acogida_tu", name := "Acogida", day := .Tuesday, slot := .Afternoon,
    time := some "16:30–17:30", grades := "I4–6th", price := 35, period := .month },
  { id := "a_yoga12_we", name := "Creative Yoga", day := .Wednesday, slot := .Afternoon,
    time := some "16:30–17:45", grades := "1st–2nd", price := 35, period := .month,
    provider := some "Sara Argibay" },
  { id := "a_dance_we", name := "Creative Dance", day := .Wednesday, slot := .Afternoon,
    time := some "16:30–17:30", grades := "I4/I5–2nd", price := 75, period := .term,
    provider := some "Eva Hernández" },
  { id := "a_skate_we", name := "Skateboarding", day := .Wednesday, slot := .Afternoon,
    time := some "16:30–17:45", grades := "1st–6th", price := 120, period := .term },
  { id := "a_beginskate_we", name := "Beginner Skating", day := .Wednesday, slot := .Afternoon,
    time := some "16:30–17:45", grades := "I4/I5–2nd", price := 75, period := .term },
  { id := "a_lettering_we", name := "Lettering (Hand-lettering)", day := .Wednesday, slot := .Afternoon,
    time := some "16:30–17:45", grades := "I4/I5–6th", price := 35, period := .month,
    provider := some "Mercè Pedraza" },
  { id := "a_acogida_we", name := "Acogida", day := .Wednesday, slot := .Afternoon,
    time := some "16:30–17:30", grades := "I4–6th", price := 35, period := .month },
  { id := "a_psy_th", name := "Psychomotricity", day := .Thursday, slot := .Afternoon,
    time := some "16:30–17:45", grades := "I3–I5", price := 75, period := .term,
    bundleKey := some "psychomotricity" },
  { id := "a_yoga_i4i5_th", name := "Creative Yoga", day := .Thursday, slot := .Afternoon,
    time := some "16:30–17:45", grades := "I4/I5", price := 35, period := .month,
    provider := some "Sara Argibay" },
  { id := "a_sportsinit_th", name := "Sports Initiation", day := .Thursday, slot := .Afternoon,
    time := some "16:30–17:45", grades := "1st–2nd", price := 75, period := .term },
  { id := "a_tennis_th", name := "Tennis at school", day := .Thursday, slot := .Afternoon,
    time := some "16:30–17:45", grades := "1st–6th", price := 35, period := .month,
    provider := some "Izan Madera" },
  { id := "a_acogida_th", name := "Acogida", day := .Thursday, slot := .Afternoon,
    time := some "16:30–17:30", grades := "I4–6th", price := 35, period := .month },
  { id := "a_ukulele_fr", name := "Ukulele", day := .Friday, slot := .Afternoon,
    time := some "16:30–17:45", grades := "2nd–6th", price := 45, period := .month,
    provider := some "Musicarea", notes := some "Bring your ukulele (options shared at start of term)" },
  { id := "a_musicsense_fr", name := "Music Sensitization", day := .Friday, slot := .Afternoon,
    time := some "16:30–17:45", grades := "I4/I5–1st", price := 45, period := .month,
    provider := some "Musicarea" },
  { id := "a_fencing_fr", name := "Fencing", day := .Friday, slot := .Afternoon,
    time := some "16:30–17:45", grades := "1st–6th", price := 38, period := .month,
    provider := some "SAG Club d'Esgrima" },
  { id := "a_acogida_fr", name := "Acogida", day := .Friday, slot := .Afternoon,
    time := some "16:30–17:30", grades := "I4–6th", price := 35, period := .month }
]

def DAYS : List Day := [.Monday, .Tuesday, .Wednesday, .Thursday, .Friday]

def SLOTS : List Slot := [.Midday, .Afternoon]

/-- `ACTIVITIES.find(a => a.id === actId)`, the linear catalog lookup the
engines perform for every assignment entry. -/
def findActivity (actId : String) : Option Activity :=
  ACTIVITIES.find? fun a => a.id = actId

/-! ## Conflict Engine (source lines 471–493)

The source closes over the module-level `ACTIVITIES`; the engine is embedded
with the catalog as an explicit parameter (the spec's
`findConflicts(plan, catalog)` contract) and `listConflicts` instantiates it
with the fixed catalog, which is exactly the source function. -/

structure Crash where
  kidId : String
  kidName : String
  day : Day
  slot : Slot
  a : Activity
  b : Activity
deriving DecidableEq

/-- Object-literal key lookup `plan.assignments[a.id]` on the association
list model of the assignment map (plain JavaScript objects have unique keys;
on lists with duplicated keys the first entry wins). -/
def lookupAssign (assignments : List (String × List String)) (actId : String) : Option (List String) :=
  (assignments.find? fun e => e.1 = actId).map fun e => e.2

def catMap {α β : Type} (f : α → List β) : List α → List β
  | [] => []
  | x :: r => f x ++ catMap f r

/-- All index pairs `i < j` of a list, in the nested-loop order of the
source. -/
def pairsOf {α : Type} : List α → List (α × α)
  | [] => []
  | x :: xs => (xs.map fun y => (x, y)) ++ pairsOf xs

/-- The slot-wide fallback range used when an activity has no (truthy) time
string (source lines 482–483). -/
def slotFallback (s : Slot) : String :=
  if s = Slot.Midday then "12:30–14:40" else "16:30–18:00"

/-- JavaScript `A.time || fallback`: an absent or empty time string is
replaced by the fallback. -/
def timeOr (t : Option String) (fb : String) : String :=
  match t with
  | some s => if s = "" then fb else s
  | none => fb

/-- The pair test of the inner loop (source line 484): conflict when either
resolved range fails to parse or the two ranges overlap. -/
def conflictPair (s : Slot) (A B : Activity) : Bool :=
  match parseTimeRange (some (timeOr A.time (slotFallback s))),
        parseTimeRange (some (timeOr B.time (slotFallback s))) with
  | some ra, some rb => overlap ra rb
  | _, _ => true

/-- The activities of a given day and slot the kid is assigned to (source
line 478). -/
def selectedFor (catalog : List Activity) (plan : PlanState) (kidId : String)
    (d : Day) (s : Slot) : List Activity :=
  catalog.filter fun a =>
    a.day = d && a.slot = s && decide (kidId ∈ (lookupAssign plan.assignments a.id).getD [])

/-- The conflict records one kid contributes for one day and slot. -/
def conflictCell (catalog : List Activity) (plan : PlanState) (kid : Kid)
    (d : Day) (s : Slot) : List Crash :=
  (pairsOf (selectedFor catalog plan kid.id d s)).filterMap fun ab =>
    if conflictPair s ab.1 ab.2 then some ⟨kid.id, kid.name, d, s, ab.1, ab.2⟩ else none

/-- `listConflicts` with the catalog as a parameter: every kid × day × slot
cell in the source's loop order. -/
def listConflictsWith (catalog : List Activity) (plan : PlanState) : List Crash :=
  catMap (fun kid => catMap (fun d => catMap (fun s => conflictCell catalog plan kid d s) SLOTS) DAYS)
    plan.kids

/-- `listConflicts` (source lines 471–493). -/
def listConflicts (plan : PlanState) : List Crash :=
  listConflictsWith ACTIVITIES plan

/-! ## Financial Engine (source lines 390–465) -/

structure Agg where
  monthly : Rat
  term : Rat
  monthItems : Rat
  materials : Rat
deriving DecidableEq

def Agg.zero : Agg := ⟨0, 0, 0, 0⟩

/-- The two working maps of `computeFinancials`: `perKid` and
`kidMaterialsKeys` (the latter a set of already-charged materials keys per
kid, modelled as a list queried by membership). -/
structure FinState where
  perKid : String → Option Agg
  mkeys : String → List String

/-- The initialization loop (source lines 398–401). -/
def initFinState (kids : List Kid) : FinState :=
  kids.foldl
    (fun st kid =>
      { perKid := fun k => if k = kid.id then some Agg.zero else st.perKid k,
        mkeys := fun k => if k = kid.id then [] else st.mkeys k })
    ⟨fun _ => none, fun _ => []⟩

/-- One step of the psychomotricity pre-scan: the bundle test sits inside
the per-kid loop (source lines 409–413). -/
def psyStep (act : Activity) (cs : String → Nat) (kidId : String) : String → Nat :=
  if act.bundleKey = some "psychomotricity" then
    fun k => if k = kidId then cs kidId + 1 else cs k
  else cs

/-- The psychomotricity pre-scan (source lines 405–414): per-kid count of
assignment occurrences on activities carrying the bundle key. -/
def psychoScan (assignments : List (String × List String)) : String → Nat :=
  assignments.foldl
    (fun counts entry =>
      match findActivity entry.1 with
      | none => counts
      | some act => entry.2.foldl (psyStep act) counts)
    fun _ => 0

/-- The materials-charge guard `act.materialsFee && act.materialsKey` with
JavaScript truthiness (a zero fee or an empty key is falsy and charges
nothing). -/
def matFee (act : Activity) : Option (String × Rat) :=
  match act.materialsFee, act.materialsKey with
  | some fee, some key => if fee ≠ 0 ∧ key ≠ "" then some (key, fee) else none
  | _, _ => none

/-- One (activity, assigned kid) step of the main pass (source lines
420–443): skip unknown kids, charge the materials fee once per key, skip
bundle activities' own price, then add the price to the monthly or term
accumulator. -/
def processPair (norm : Bool) (act : Activity) (st : FinState) (kidId : String) : FinState :=
  match st.perKid kidId with
  | none => st
  | some agg =>
    let set0 := st.mkeys kidId
    let step1 : Agg × List String :=
      match matFee act with
      | some kf =>
        if kf.1 ∈ set0 then (agg, set0)
        else ({ agg with materials := agg.materials + kf.2 }, kf.1 :: set0)
      | none => (agg, set0)
    let agg2 : Agg :=
      if act.bundleKey = some "psychomotricity" then step1.1
      else if act.period = Period.month then
        { step1.1 with monthly := step1.1.monthly + act.price }
      else
        { step1.1 with term := step1.1.term + act.price,
                       monthly := step1.1.monthly + (if norm then act.price / 3 else 0) }
    { perKid := fun k => if k = kidId then some agg2 else st.perKid k,
      mkeys := fun k => if k = kidId then step1.2 else st.mkeys k }

/-- The first (per-item) pass of `computeFinancials` (source lines 417–444). -/
def mainPass (norm : Bool) (assignments : List (String × List String)) (st : FinState) : FinState :=
  assignments.foldl
    (fun st entry =>
      match findActivity entry.1 with
      | none => st
      | some act => entry.2.foldl (processPair norm act) st)
    st

/-- One step of the bundle pass (the loop body at source lines 448–453).
The source reads the kid's aggregate with a non-null assertion; the `none`
branch is unreachable because every kid of `plan.kids` was initialized. -/
def bundleKidStep (norm : Bool) (counts : String → Nat) (st : FinState) (kid : Kid) : FinState :=
  if counts kid.id = 0 then st
  else
    match st.perKid kid.id with
    | none => st
    | some agg =>
      let bundleTerm : Rat := if 2 ≤ counts kid.id then 135 else 75
      let agg2 := { agg with term := agg.term + bundleTerm,
                             monthly := agg.monthly + (if norm then bundleTerm / 3 else 0) }
      { st with perKid := fun k => if k = kid.id then some agg2 else st.perKid k }

/-- The second (bundle) pass (source lines 447–454). -/
def bundlePass (norm : Bool) (kids : List Kid) (counts : String → Nat) (st : FinState) : FinState :=
  kids.foldl (bundleKidStep norm counts) st

/-- Keys of a string-keyed JavaScript `Map` in iteration (insertion) order:
first occurrences, left to right. -/
def firstOccurrences : List String → List String → List String
  | _, [] => []
  | seen, x :: r =>
    if x ∈ seen then firstOccurrences seen r else x :: firstOccurrences (x :: seen) r

structure Financials where
  perKid : String → Option Agg
  totalMonthly : Rat
  totalTerm : Rat
  totalMaterials : Rat

/-- `computeFinancials` (source lines 390–465). -/
def computeFinancials (plan : PlanState) (normalizeMonthly : Bool) : Financials :=
  let st0 := initFinState plan.kids
  let counts := psychoScan plan.assignments
  let st1 := mainPass normalizeMonthly plan.assignments st0
  let st2 := bundlePass normalizeMonthly plan.kids counts st1
  let ids := firstOccurrences [] (plan.kids.map fun k => k.id)
  { perKid := st2.perKid,
    totalMonthly := ids.foldl (fun acc i => acc + ((st2.perKid i).getD Agg.zero).monthly) 0,
    totalTerm := ids.foldl (fun acc i => acc + ((st2.perKid i).getD Agg.zero).term) 0,
    totalMaterials := ids.foldl (fun acc i => acc + ((st2.perKid i).getD Agg.zero).materials) 0 }

/-! ## Per-kid reading of the financial passes

The following definitions name, per kid, the data the passes accumulate;
the theorems below prove that `computeFinancials` computes them. -/

/-- The activities a kid id is assigned to, with multiplicity, in the order
the main pass encounters them (entries with an unknown activity id are
skipped). -/
def kidActs (assignments : List (String × List String)) (K : String) : List Activity :=
  catMap
    (fun entry =>
      match findActivity entry.1 with
      | none => []
      | some act => (entry.2.filter fun i => i = K).map fun _ => act)
    assignments

/-- The per-kid mirror of `processPair`, acting on the kid's own aggregate
and key set only. -/
def kidStep (norm : Bool) (s : Option Agg × List String) (act : Activity) :
    Option Agg × List String :=
  match s.1 with
  | none => s
  | some agg =>
    let step1 : Agg × List String :=
      match matFee act with
      | some kf =>
        if kf.1 ∈ s.2 then (agg, s.2)
        else ({ agg with materials := agg.materials + kf.2 }, kf.1 :: s.2)
      | none => (agg, s.2)
    let agg2 : Agg :=
      if act.bundleKey = some "psychomotricity" then step1.1
      else if act.period = Period.month then
        { step1.1 with monthly := step1.1.monthly + act.price }
      else
        { step1.1 with term := step1.1.term + act.price,
                       monthly := step1.1.monthly + (if norm then act.price / 3 else 0) }
    (some agg2, step1.2)

/-- Monthly money the per-item pass adds for a list of assigned activities:
bundle activities are excluded, monthly items count in full, term items
count as a third when normalization is on. -/
def monthContrib (norm : Bool) : List Activity → Rat
  | [] => 0
  | act :: r =>
    (if act.bundleKey = some "psychomotricity" then 0
     else if act.period = Period.month then act.price
     else if norm then act.price / 3 else 0) + monthContrib norm r

/-- Term money the per-item pass adds: prices of non-bundle term-billed
activities. -/
def termContrib : List Activity → Rat
  | [] => 0
  | act :: r =>
    (if act.bundleKey = some "psychomotricity" then 0
     else if act.period = Period.month then 0
     else act.price) + termContrib r

/-- Materials money charged over a list of activities, given the set of
keys already charged: the first occurrence of each new key is charged. -/
def matContrib (seen : List String) : List Activity → Rat
  | [] => 0
  | act :: r =>
    match matFee act with
    | some kf =>
      if kf.1 ∈ seen then matContrib seen r
      else kf.2 + matContrib (kf.1 :: seen) r
    | none => matContrib seen r

/-- The materials keys charged (in charge order) over a list of activities,
given the already-charged set. -/
def chargedKeys (seen : List String) : List Activity → List String
  | [] => []
  | act :: r =>
    match matFee act with
    | some kf =>
      if kf.1 ∈ seen then chargedKeys seen r
      else kf.1 :: chargedKeys (kf.1 :: seen) r
    | none => chargedKeys seen r

/-- The key set after the per-item pass. -/
def finalKeys (seen : List String) : List Activity → List String
  | [] => seen
  | act :: r =>
    match matFee act with
    | some kf =>
      if kf.1 ∈ seen then finalKeys seen r
      else finalKeys (kf.1 :: seen) r
    | none => finalKeys seen r

/-- Number of psychomotricity-bundle selections among a kid's assigned
activities. -/
def bundleCount (acts : List Activity) : Nat :=
  acts.countP fun a => a.bundleKey = some "psychomotricity"

/-- The fee the catalog associates with a materials key (the catalog gives
every key a single fee; proven below). -/
def feeOfKey (k : String) : Rat :=
  match ACTIVITIES.find? (fun a => a.materialsKey = some k) with
  | some a => a.materialsFee.getD 0
  | none => 0

/-! ## Plan mutations (source lines 556–585) -/

/-- `removeKid` (source lines 556–565): drop the kid from the roster and
filter its id out of every assignment list. -/
def removeKid (kidId : String) (p : PlanState) : PlanState :=
  { kids := p.kids.filter fun k => k.id ≠ kidId,
    assignments := p.assignments.map fun e => (e.1, e.2.filter fun i => i ≠ kidId) }

/-- The spread `{ ...assignments, [activityId]: next }`: overwrite the key if
present (JavaScript objects keep the original position), append otherwise. -/
def setAssign (assignments : List (String × List String)) (actId : String) (v : List String) :
    List (String × List String) :=
  if assignments.any (fun e => e.1 = actId) then
    assignments.map fun e => if e.1 = actId then (e.1, v) else e
  else assignments ++ [(actId, v)]

/-- `toggleAssignment` (source lines 569–585).  The eligibility check fires
only when adding; the `alert` side effect is dropped (the rejected mutation
returns the plan unchanged). -/
def toggleAssignment (activityId kidId : String) (p : PlanState) : PlanState :=
  let current := (lookupAssign p.assignments activityId).getD []
  let isAssigned := decide (kidId ∈ current)
  let blocked :=
    if isAssigned then false
    else
      match findActivity activityId, p.kids.find? fun k => k.id = kidId with
      | some activity, some kid => !isKidEligibleFor activity kid
      | _, _ => false
  if blocked then p
  else
    let next := if isAssigned then current.filter (fun i => i ≠ kidId) else current ++ [kidId]
    { p with assignments := setAssign p.assignments activityId next }

/-! ## Import (source lines 597–608)

`importPlan` runs the platform's `JSON.parse` on the file text and stores
the parsed value as the new plan with a bare type cast — no schema check;
only a parse exception is caught (alert + no change).  `Json` and
`parseJson` below model the platform parser (not repository code),
restricted to integer numerals and to the simple escape sequences; that
restriction is irrelevant to the claims, which only need totality and the
parse of small concrete documents. -/

inductive Json where
  | null
  | bool (b : Bool)
  | num (n : Int)
  | str (s : String)
  | arr (elems : List Json)
  | obj (fields : List (String × Json))

def skipWs : List Char → List Char
  | [] => []
  | c :: r => if isWsChar c then skipWs r else c :: r

/-- Body of a JSON string literal after the opening quote; returns the
characters and the remainder after the closing quote. -/
def parseStrBody : List Char → Option (List Char × List Char)
  | [] => none
  | '"' :: r => some ([], r)
  | '\\' :: e :: r =>
    let esc : Option Char :=
      if e = '"' then some '"'
      else if e = '\\' then some '\\'
      else if e = '/' then some '/'
      else if e = 'n' then some '\n'
      else if e = 't' then some '\t'
      else if e = 'r' then some '\r'
      else none
    match esc with
    | none => none
    | some c => (parseStrBody r).map fun pr => (c :: pr.1, pr.2)
  | c :: r => (parseStrBody r).map fun pr => (c :: pr.1, pr.2)

def takeDigits : List Char → List Char × List Char
  | [] => ([], [])
  | c :: r =>
    if c.isDigit then
      let pr := takeDigits r
      (c :: pr.1, pr.2)
    else ([], c :: r)

def digitsToNat (ds : List Char) : Nat :=
  ds.foldl (fun acc c => acc * 10 + digitVal c) 0

def parseNumTok : List Char → Option (Int × List Char)
  | '-' :: r =>
    match takeDigits r with
    | ([], _) => none
    | (ds, rest) => some (-(Int.ofNat (digitsToNat ds)), rest)
  | cs =>
    match takeDigits cs with
    | ([], _) => none
    | (ds, rest) => some (Int.ofNat (digitsToNat ds), rest)

mutual

def parseVal : Nat → List Char → Option (Json × List Char)
  | 0, _ => none
  | fuel + 1, cs =>
    match skipWs cs with
    | 'n' :: 'u' :: 'l' :: 'l' :: r => some (.null, r)
    | 't' :: 'r' :: 'u' :: 'e' :: r => some (.bool true, r)
    | 'f' :: 'a' :: 'l' :: 's' :: 'e' :: r => some (.bool false, r)
    | '"' :: r => (parseStrBody r).map fun pr => (.str (String.mk pr.1), pr.2)
    | '[' :: r =>
      (match skipWs r with
       | ']' :: r2 => some (.arr [], r2)
       | r2 => (parseItems fuel r2).map fun pr => (.arr pr.1, pr.2))
    | '{' :: r =>
      (match skipWs r with
       | '}' :: r2 => some (.obj [], r2)
       | r2 => (parseFields fuel r2).map fun pr => (.obj pr.1, pr.2))
    | cs2 => (parseNumTok cs2).map fun pr => (.num pr.1, pr.2)

def parseItems : Nat → List Char → Option (List Json × List Char)
  | 0, _ => none
  | fuel + 1, cs =>
    match parseVal fuel cs with
    | none => none
    | some (v, rest) =>
      match skipWs rest with
      | ',' :: r2 => (parseItems fuel r2).map fun pr => (v :: pr.1, pr.2)
      | ']' :: r2 => some ([v], r2)
      | _ => none

def parseFields : Nat → List Char → Option (List (String × Json) × List Char)
  | 0, _ => none
  | fuel + 1, cs =>
    match skipWs cs with
    | '"' :: r =>
      match parseStrBody r with
      | none => none
      | some (key, r2) =>
        match skipWs r2 with
        | ':' :: r3 =>
          (match parseVal fuel r3 with
           | none => none
           | some (v, r4) =>
             match skipWs r4 with
             | ',' :: r5 => (parseFields fuel r5).map fun pr => ((String.mk key, v) :: pr.1, pr.2)
             | '}' :: r5 => some ([(String.mk key, v)], r5)
             | _ => none)
        | _ => none
    | _ => none

end

/-- Model of `JSON.parse`: parse one value and require only trailing
whitespace after it. -/
def parseJson (text : String) : Option Json :=
  match parseVal (text.length + 1) text.toList with
  | some (v, rest) => if skipWs rest = [] then some v else none
  | none => none

/-- `importPlan` (source lines 597–608): the parsed value (whatever it is)
is stored as the new plan; only a parse failure alerts (the `Bool`) and
leaves the previous plan in place.  The stored state is a `Json` value
because the source casts without validating. -/
def importPlan (text : String) (prev : Json) : Json × Bool :=
  match parseJson text with
  | some data => (data, false)
  | none => (prev, true)

def lookupField (fields : List (String × Json)) (k : String) : Option Json :=
  (fields.find? fun f => f.1 = k).map fun f => f.2

/-- Follows the spec's words (§6): a grade token of the plan document
schema. -/
def decodeGradeTok : Json → Option GradeLevel
  | .str s =>
    if s = "I3" then some .I3
    else if s = "I4" then some .I4
    else if s = "I5" then some .I5
    else if s = "1st" then some .g1st
    else if s = "2nd" then some .g2nd
    else if s = "3rd" then some .g3rd
    else if s = "4th" then some .g4th
    else if s = "5th" then some .g5th
    else if s = "6th" then some .g6th
    else none
  | _ => none

/-- Follows the spec's words (§6): a kid record with id/name/color/grade. -/
def decodeKid (j : Json) : Option Kid :=
  match j with
  | .obj fields =>
    match lookupField fields "id", lookupField fields "name",
          lookupField fields "color", lookupField fields "grade" with
    | some (.str i), some (.str n), some (.str c), some g =>
      (decodeGradeTok g).map fun gl => ⟨i, n, c, gl⟩
    | _, _, _, _ => none
  | _ => none

def decodeStrList : Json → Option (List String)
  | .arr es => es.mapM fun j => match j with | .str s => some s | _ => none
  | _ => none

/-- Follows the spec's words (§6): the plan document schema — a kids list
and an assignments map from activity id to child-id list.  This is what the
claim says `importPlan` validates against; the code does not. -/
def decodePlanDoc : Json → Option PlanState
  | .obj fields =>
    match lookupField fields "kids", lookupField fields "assignments" with
    | some (.arr ks), some (.obj asg) =>
      match ks.mapM decodeKid, asg.mapM fun e => (decodeStrList e.2).map fun l => (e.1, l) with
      | some kids, some assignments => some ⟨kids, assignments⟩
      | _, _ => none
    | _, _ => none
  | _ => none

/-! ## Concrete instances used by the claims -/

def advAct : Activity :=
  { id := "x_adults", name := "Evening club", day := .Monday, slot := .Midday,
    grades := "adult", price := 0, period := .month }

def kidC1 : Kid := ⟨"k1", "Ana", "#22c55e", .I4⟩

def actC6 : Activity :=
  { id := "x_c6", name := "English", day := .Monday, slot := .Midday,
    grades := "I4/I5–2nd", price := 58, period := .month }

def kidC6a : Kid := ⟨"k6a", "Iris", "#f00", .I4⟩

def kidC6b : Kid := ⟨"k6b", "Pau", "#0f0", .g3rd⟩

def emptyPlanJson : Json := .obj [("kids", .arr []), ("assignments", .obj [])]

def kidPsy : Kid := ⟨"kp", "Mar", "#00f", .I4⟩

/-- The Monday psychomotricity catalog entry (used to evaluate concrete
plans). -/
def actPsyMo : Activity :=
  { id := "a_psy_mo", name := "Psychomotricity", day := .Monday, slot := .Afternoon,
    time := some "16:30–17:45", grades := "I3–I5", price := 75, period := .term,
    bundleKey := some "psychomotricity" }

/-- The Thursday psychomotricity catalog entry. -/
def actPsyTh : Activity :=
  { id := "a_psy_th", name := "Psychomotricity", day := .Thursday, slot := .Afternoon,
    time := some "16:30–17:45", grades := "I3–I5", price := 75, period := .term,
    bundleKey := some "psychomotricity" }

/-- The Monday English catalog entry (materials key `unicor-english`). -/
def actEngMon : Activity :=
  { id := "m_en_i4-2_mon", name := "English (UNICOR)", day := .Monday, slot := .Midday,
    time := some "12:30–13:30", grades := "I4/I5–2nd", price := 58, period := .month,
    provider := some "UNICOR Languages", notes := some "2×/week (Mon+Wed)",
    materialsFee := some 40, materialsKey := some "unicor-english" }

/-- The Wednesday English catalog entry (same materials key and fee). -/
def actEngWed : Activity :=
  { id := "m_en_i4-2_wed", name := "English (UNICOR)", day := .Wednesday, slot := .Midday,
    time := some "12:30–13:30", grades := "I4/I5–2nd", price := 58, period := .month,
    provider := some "UNICOR Languages", notes := some "2×/week (Mon+Wed)",
    materialsFee := some 40, materialsKey := some "unicor-english" }

/-- A child assigned to both psychomotricity-bundle activities (Monday and
Thursday). -/
def psyPlan : PlanState :=
  { kids := [kidPsy],
    assignments := [("a_psy_mo", ["kp"]), ("a_psy_th", ["kp"])] }

def kidEng : Kid := ⟨"ke", "Lia", "#0ff", .I5⟩

/-- A child assigned to the two Monday/Wednesday English activities that
share `materialsKey = "unicor-english"` with `materialsFee = 40`. -/
def engPlan : PlanState :=
  { kids := [kidEng],
    assignments := [("m_en_i4-2_mon", ["ke"]), ("m_en_i4-2_wed", ["ke"])] }

def kidW5 : Kid := ⟨"kw5", "Noa", "#abc", .g1st⟩

def actW1 : Activity :=
  { id := "w1", name := "W1", day := .Tuesday, slot := .Midday,
    grades := "", price := 10, period := .month }

def actW2 : Activity :=
  { id := "w2", name := "W2", day := .Tuesday, slot := .Midday,
    grades := "", price := 10, period := .month }

/-- Two same-day same-slot activities without a time field, assigned to one
kid. -/
def planW5 : PlanState :=
  { kids := [kidW5], assignments := [("w1", ["kw5"]), ("w2", ["kw5"])] }

def actW1t : Activity :=
  { id := "w1", name := "W1", day := .Tuesday, slot := .Midday,
    time := some "12:30–13:00", grades := "", price := 10, period := .month }

def actW2t : Activity :=
  { id := "w2", name := "W2", day := .Tuesday, slot := .Midday,
    time := some "13:00–13:30", grades := "", price := 10, period := .month }

def actW2g : Activity :=
  { id := "w2", name := "W2", day := .Tuesday, slot := .Midday,
    time := some "bad time", grades := "", price := 10, period := .month }

def kidC7 : Kid := ⟨"kw", "Pol", "#123", .I3⟩

def planC7 : PlanState := { kids := [kidC7], assignments := [] }

def planC7b : PlanState :=
  { kids := [kidC7], assignments := [("m_theatre_3-6_mon", ["kw"])] }

def kidC8a : Kid := ⟨"k8a", "Gal", "#111", .g2nd⟩

def kidC8b : Kid := ⟨"k8b", "Tam", "#222", .g2nd⟩

def planC8 : PlanState :=
  { kids := [kidC8a, kidC8b],
    assignments := [("m_chess_1-2_tue", ["k8a", "k8b"]), ("m_hiphop_wed", ["k8b"])] }

def planC9 : PlanState :=
  { kids := [kidC8a], assignments := [("m_chess_1-2_tue", ["k8a"])] }

/-- `planC9` with a child id in an assignment list that names no kid on the
roster. -/
def planC9g : PlanState :=
  { kids := [kidC8a], assignments := [("m_chess_1-2_tue", ["k8a", "ghost"])] }

/-- Number of conflict records for a given (kid id, day, slot) triple. -/
def conflictCountFor (catalog : List Activity) (plan : PlanState) (K : String)
    (D : Day) (S : Slot) : Nat :=
  ((listConflictsWith catalog plan).filter fun c =>
    c.kidId = K && c.day = D && c.slot = S).length

/-- One kid's slice of the financial working state: its aggregate and its
set of charged materials keys. -/
def slotOf (st : FinState) (K : String) : Option Agg × List String :=
  (st.perKid K, st.mkeys K)

/-- The flat per-term bundle fee: 135 for two or more selections (capped),
75 for one (source line 451). -/
def bundleTermFee (n : Nat) : Rat :=
  if 2 ≤ n then 135 else 75

/-- The per-kid effect of one `bundlePass` step on the kid's aggregate. -/
def bundleStep (norm : Bool) (counts : String → Nat) (K : String) (a : Option Agg) : Option Agg :=
  if counts K = 0 then a
  else
    match a with
    | none => a
    | some agg =>
      some { agg with term := agg.term + bundleTermFee (counts K),
                      monthly := agg.monthly + (if norm then bundleTermFee (counts K) / 3 else 0) }

/-! # Theorems -/

/-! ## Generic helper lemmas -/

theorem mk_toList (l : List Char) : (String.mk l).toList = l := rfl

theorem splitBy_eq_single {p : Char → Bool} :
    ∀ cs : List Char, (∀ c ∈ cs, p c = false) → splitBy p cs = [cs] := by
  intro cs
  induction cs with
  | nil => intro _; rfl
  | cons c r ih =>
    intro h
    have hc : p c = false := h c (by simp)
    have hr := ih fun x hx => h x (by simp [hx])
    simp [splitBy, hc, hr]

theorem mem_dropWhile_of_neg {p : Char → Bool} {c : Char} :
    ∀ l : List Char, c ∈ l → p c = false → c ∈ l.dropWhile p := by
  intro l
  induction l with
  | nil => simp
  | cons x r ih =>
    intro hmem hneg
    by_cases hx : p x = true
    · rw [List.dropWhile_cons_of_pos hx]
      rcases List.mem_cons.mp hmem with h | h
      · subst h; rw [hneg] at hx; cases hx
      · exact ih h hneg
    · rw [List.dropWhile_cons_of_neg hx]
      exact hmem

theorem mem_trim {c : Char} {s : String} (h : c ∈ s.toList) (hw : isWsChar c = false) :
    c ∈ (trimStr s).toList := by
  unfold trimStr
  rw [mk_toList]
  rw [List.mem_reverse]
  apply mem_dropWhile_of_neg _ _ hw
  rw [List.mem_reverse]
  exact mem_dropWhile_of_neg _ h hw

theorem ordSuffix_slash_left (b : Char) : ordSuffix '/' b = false := by
  simp [ordSuffix]

theorem ordSuffix_slash_right (a : Char) : ordSuffix a '/' = false := by
  simp [ordSuffix]

theorem normalizeCore_none_of_slash : ∀ l : List Char, '/' ∈ l → normalizeCore l = none := by
  intro l h
  cases l with
  | nil => simp at h
  | cons i t =>
    cases t with
    | nil =>
      have h2 : '/' = i := by simpa using h
      subst h2
      simp [normalizeCore]
    | cons d t2 =>
      cases t2 with
      | nil =>
        have h2 : '/' = i ∨ '/' = d := by simpa using h
        rcases h2 with h2 | h2 <;> subst h2 <;> simp [normalizeCore]
      | cons b t3 =>
        cases t3 with
        | cons c4 r4 => simp [normalizeCore]
        | nil =>
          have h2 : '/' = i ∨ '/' = d ∨ '/' = b := by simpa using h
          rcases h2 with h2 | h2 | h2 <;> subst h2 <;>
            simp [normalizeCore, ordSuffix_slash_left, ordSuffix_slash_right]

theorem normalize_none_of_slash {s : String} (h : '/' ∈ (trimStr s).toList) :
    normalizeGradeToken s = none :=
  normalizeCore_none_of_slash _ h

theorem normalize_seg_none (seg : List Char)
    (h : ∀ tok ∈ (splitSlash seg).map String.mk, (normalizeGradeToken tok).isNone = true) :
    normalizeGradeToken (String.mk seg) = none := by
  by_cases hs : '/' ∈ seg
  · exact normalize_none_of_slash (mem_trim (by rwa [mk_toList]) (by decide))
  · have hss : splitSlash seg = [seg] := by
      apply splitBy_eq_single
      intro c hc
      rw [decide_eq_false_iff_not]
      intro hceq
      exact hs (hceq ▸ hc)
    have h2 := h (String.mk seg) (by rw [hss]; simp)
    rwa [Option.isNone_iff_eq_none] at h2

theorem partMatches_nil (kidVal : Int) (part : String) (h : splitDash part.toList = []) :
    partMatches kidVal part = false := by
  unfold partMatches
  rw [h]

theorem partMatches_single (kidVal : Int) (part : String) (single : List Char)
    (h : splitDash part.toList = [single]) :
    partMatches kidVal part =
      (((splitSlash single).map String.mk).filterMap normalizeGradeToken).any
        (fun g => gradeOrder g = some kidVal) := by
  unfold partMatches
  rw [h]

theorem partMatches_range (kidVal : Int) (part : String) (l r : List Char)
    (h : splitDash part.toList = [l, r]) :
    partMatches kidVal part =
      (match normalizeGradeToken (String.mk r) with
       | none => false
       | some rt =>
         jsRangeTest ((((splitSlash l).map String.mk).filterMap normalizeGradeToken).map gradeOrder)
           (gradeOrder rt) kidVal) := by
  unfold partMatches
  rw [h]

theorem partMatches_long (kidVal : Int) (part : String) (x y z : List Char) (rest : List (List Char))
    (h : splitDash part.toList = x :: y :: z :: rest) :
    partMatches kidVal part = false := by
  unfold partMatches
  rw [h]

/-! ## Claim C1 -/

/-- C1, counterexample: the grade expression `"adult"` consists of one
clause made entirely of unrecognized tokens, yet `isKidEligibleFor` returns
`false` for it — not `true` as the claim states for entirely unparseable
expressions. -/
theorem c1_counterexample :
    partsOf advAct.grades ≠ [] ∧ allTokensUnparseable advAct.grades = true ∧
    isKidEligibleFor advAct kidC1 = false := by
  refine ⟨?_, ?_, ?_⟩ <;> decide

/-- C1 (amended): `isKidEligibleFor` returns `true` for every child exactly
when the grade expression yields zero nonempty clauses (for instance the
empty expression, or one that strips to nothing); when at least one
nonempty clause exists but every dash/slash-separated token in every clause
is unrecognized, it returns `false` for every child. -/
theorem c1_eligibility_default :
    (∀ (activity : Activity) (kid : Kid),
        partsOf activity.grades = [] → isKidEligibleFor activity kid = true) ∧
    (∀ (activity : Activity) (kid : Kid),
        partsOf activity.grades ≠ [] → allTokensUnparseable activity.grades = true →
        isKidEligibleFor activity kid = false) := by
  constructor
  · intro activity kid hp
    simp [isKidEligibleFor, hp]
  · intro activity kid hp hall
    unfold isKidEligibleFor
    rw [if_neg (by simpa [List.isEmpty_iff] using hp)]
    rw [List.any_eq_false]
    intro part hpart
    unfold allTokensUnparseable at hall
    rw [List.all_eq_true] at hall
    have hsegs := hall part hpart
    rw [List.all_eq_true] at hsegs
    rcases hd : splitDash part.toList with _ | ⟨s1, _ | ⟨s2, _ | ⟨s3, rest⟩⟩⟩
    · simp [partMatches_nil _ _ hd]
    · rw [partMatches_single (gradeRank kid.grade) part s1 hd]
      have htoks := hsegs s1 (by rw [hd]; simp)
      rw [List.all_eq_true] at htoks
      have hnil : ((splitSlash s1).map String.mk).filterMap normalizeGradeToken = [] := by
        rw [List.filterMap_eq_nil_iff]
        intro tok htok
        have := htoks tok htok
        rwa [Option.isNone_iff_eq_none] at this
      simp [hnil]
    · rw [partMatches_range (gradeRank kid.grade) part s1 s2 hd]
      have htoks := hsegs s2 (by rw [hd]; simp)
      rw [List.all_eq_true] at htoks
      have hr : normalizeGradeToken (String.mk s2) = none :=
        normalize_seg_none s2 htoks
      simp [hr]
    · simp [partMatches_long _ _ _ _ _ _ hd]

/-- Witness for C1 (amended) at concrete inputs: the empty grade expression
admits the I4 child, the all-unrecognized expression `"adult"` rejects it. -/
theorem c1_eligibility_default_witness :
    isKidEligibleFor actW1 kidC1 = true ∧ isKidEligibleFor advAct kidC1 = false :=
  ⟨c1_eligibility_default.1 actW1 kidC1 (by decide),
   c1_eligibility_default.2 advAct kidC1 (by decide) (by decide)⟩

/-! ## Claim C6 -/

/-- C6: for the expression `"I4/I5–2nd"`, a child of grade I4 is eligible
and a child of grade 3rd is not; in general, a clause that dash-splits into
`LEFT–RIGHT` where RIGHT normalizes to a token of rank `e` and LEFT's
slash-separated alternatives normalize to tokens whose ranks are `v :: vs`
matches a child exactly when the child's rank lies in
`[minList v vs, e]` inclusive. -/
theorem c6_range_clause :
    (isKidEligibleFor actC6 kidC6a = true) ∧
    (isKidEligibleFor actC6 kidC6b = false) ∧
    (∀ (part : String) (l r : List Char) (rt : String) (e v : Int) (vs : List Int)
        (kidVal : Int),
        splitDash part.toList = [l, r] →
        normalizeGradeToken (String.mk r) = some rt →
        gradeOrder rt = some e →
        (((splitSlash l).map String.mk).filterMap normalizeGradeToken).map gradeOrder
          = (v :: vs).map some →
        (partMatches kidVal part = true ↔ (minList v vs ≤ kidVal ∧ kidVal ≤ e))) := by
  refine ⟨by decide, by decide, ?_⟩
  intro part l r rt e v vs kidVal hd hr he hranks
  rw [partMatches_range kidVal part l r hd, hr, hranks]
  simp only [he]
  simp [jsRangeTest, List.filterMap_map]

/-- Witness for C6 at the clause `"I4/I5–2nd"` and rank `-1` (grade I4). -/
theorem c6_range_clause_witness :
    partMatches (-1) "I4/I5–2nd" = true ↔ (minList (-1) [0] ≤ -1 ∧ (-1 : Int) ≤ 2) :=
  c6_range_clause.2.2 "I4/I5–2nd" ['I', '4', '/', 'I', '5'] ['2', 'n', 'd'] "2nd" 2 (-1) [0] (-1)
    (by decide) (by decide) (by decide) (by decide)

/-! ## Claim C10 -/

theorem isTimeSep_not_digit {s : Char} (h : isTimeSep s = true) : s.isDigit = false := by
  rcases (by simpa [isTimeSep] using h : (s = ':' ∨ s = 'h') ∨ s = '.') with (h | h) | h <;>
    subst h <;> decide

theorem matchTimeAt_append (cs extra : List Char) (h : (matchTimeAt cs).isSome = true) :
    (matchTimeAt (cs ++ extra)).isSome = true := by
  cases cs with
  | nil => simp [matchTimeAt, matchTime2, matchTime1] at h
  | cons a t1 =>
  cases t1 with
  | nil => simp [matchTimeAt, matchTime2, matchTime1] at h
  | cons b t2 =>
  cases t2 with
  | nil => simp [matchTimeAt, matchTime2, matchTime1] at h
  | cons s3 t3 =>
  cases t3 with
  | nil => simp [matchTimeAt, matchTime2, matchTime1] at h
  | cons d4 t4 =>
  cases t4 with
  | nil =>
    simp only [matchTimeAt, matchTime2, matchTime1] at h
    split_ifs at h with hc1
    case neg => simp at h
    case pos =>
      have hbsep : isTimeSep b = true := by
        simp only [Bool.and_eq_true] at hc1
        exact hc1.1.1.2
      have hbd : b.isDigit = false := isTimeSep_not_digit hbsep
      cases extra with
      | nil => simp [matchTimeAt, matchTime2, matchTime1, hc1]
      | cons x xs =>
        simp only [List.cons_append, List.nil_append]
        simp [matchTimeAt, matchTime2, matchTime1, hbd, hc1]
  | cons e5 rest =>
    simp only [matchTimeAt, matchTime2, matchTime1] at h
    simp only [List.cons_append, matchTimeAt, matchTime2, matchTime1]
    split_ifs at h ⊢ with hc2 hc1 <;> simp_all

theorem searchTime_append_right (extra : List Char) :
    ∀ cs, (searchTime cs).isSome = true → (searchTime (cs ++ extra)).isSome = true := by
  intro cs
  induction cs with
  | nil => simp [searchTime]
  | cons c rest ih =>
    intro h
    rw [List.cons_append, searchTime]
    rcases hm : matchTimeAt (c :: rest) with _ | v
    · rw [searchTime, hm] at h
      have h2 := ih h
      rcases hm2 : matchTimeAt (c :: (rest ++ extra)) with _ | v2
      · simpa [hm2] using h2
      · simp
    · have h2 : (matchTimeAt ((c :: rest) ++ extra)).isSome = true :=
        matchTimeAt_append _ extra (by rw [hm]; rfl)
      rw [List.cons_append] at h2
      rcases hm2 : matchTimeAt (c :: (rest ++ extra)) with _ | v2
      · rw [hm2] at h2; simp at h2
      · simp

theorem searchTime_append_left (pre : List Char) :
    ∀ t, (searchTime t).isSome = true → (searchTime (pre ++ t)).isSome = true := by
  induction pre with
  | nil => simp
  | cons c r ih =>
    intro t h
    rw [List.cons_append, searchTime]
    rcases hm : matchTimeAt (c :: (r ++ t)) with _ | v
    · simpa [hm] using ih t h
    · simp

/-- C10: `parseMinutes` does no range validation and no anchoring — any
1–2 digit hour and any two digits of minutes are accepted and converted as
`hh * 60 + mm` (so `"25:99"` gives `1599`), and surrounding characters never
turn a parseable token into a failure (the leftmost match is used). -/
theorem c10_parseMinutes :
    (parseMinutes "25:99" = some 1599) ∧
    (∀ (a b sep c d : Char), a.isDigit = true → b.isDigit = true → isTimeSep sep = true →
        c.isDigit = true → d.isDigit = true →
        parseMinutes (String.mk [a, b, sep, c, d])
          = some ((10 * digitVal a + digitVal b) * 60 + (10 * digitVal c + digitVal d))) ∧
    (∀ (a sep c d : Char), a.isDigit = true → isTimeSep sep = true →
        c.isDigit = true → d.isDigit = true →
        parseMinutes (String.mk [a, sep, c, d])
          = some (digitVal a * 60 + (10 * digitVal c + digitVal d))) ∧
    (∀ s t : String, (parseMinutes t).isSome = true →
        (parseMinutes (String.mk (s.toList ++ t.toList))).isSome = true ∧
        (parseMinutes (String.mk (t.toList ++ s.toList))).isSome = true) := by
  refine ⟨by decide, ?_, ?_, ?_⟩
  · intro a b sep c d ha hb hsep hc hd
    simp [parseMinutes, searchTime, matchTimeAt, matchTime2, ha, hb, hsep, hc, hd]
  · intro a sep c d ha hsep hc hd
    have hsd : sep.isDigit = false := isTimeSep_not_digit hsep
    simp [parseMinutes, searchTime, matchTimeAt, matchTime2, matchTime1, ha, hsd, hsep, hc, hd]
  · intro s t h
    unfold parseMinutes at h
    have hx : (searchTime t.toList).isSome = true := by
      rcases hs : searchTime t.toList with _ | v
      · rw [hs] at h; simp at h
      · rfl
    have h1 := searchTime_append_left s.toList t.toList hx
    have h2 := searchTime_append_right s.toList t.toList hx
    constructor
    · unfold parseMinutes
      rw [mk_toList]
      rcases hs : searchTime (s.toList ++ t.toList) with _ | v
      · rw [hs] at h1; simp at h1
      · simp [hs]
    · unfold parseMinutes
      rw [mk_toList]
      rcases hs : searchTime (t.toList ++ s.toList) with _ | v
      · rw [hs] at h2; simp at h2
      · simp [hs]

/-- Witness for C10 at concrete inputs. -/
theorem c10_parseMinutes_witness :
    parseMinutes "25:99" = some ((10 * digitVal '2' + digitVal '5') * 60
      + (10 * digitVal '9' + digitVal '9')) ∧
    parseMinutes "7h05" = some (digitVal '7' * 60 + (10 * digitVal '0' + digitVal '5')) ∧
    ((parseMinutes (String.mk ("xx".toList ++ "25:99".toList))).isSome = true ∧
      (parseMinutes (String.mk ("25:99".toList ++ "xx".toList))).isSome = true) :=
  ⟨c10_parseMinutes.2.1 '2' '5' ':' '9' '9' (by decide) (by decide) (by decide) (by decide)
      (by decide),
   c10_parseMinutes.2.2.1 '7' 'h' '0' '5' (by decide) (by decide) (by decide) (by decide),
   c10_parseMinutes.2.2.2 "xx" "25:99" (by decide)⟩

/-! ## Claim C7 -/

theorem lookupAssign_setAssign (actId : String) (v : List String) :
    ∀ assignments : List (String × List String),
      lookupAssign (setAssign assignments actId v) actId = some v := by
  intro assignments
  induction assignments with
  | nil => simp [setAssign, lookupAssign]
  | cons e r ih =>
    by_cases he : e.1 = actId
    · simp [setAssign, lookupAssign, he]
    · by_cases hr : r.any (fun e => e.1 = actId) = true
      · rw [setAssign, if_pos (by simp [List.any_cons, he, hr])]
        rw [setAssign, if_pos hr] at ih
        simpa [lookupAssign, he] using ih
      · rw [setAssign, if_neg (by simp [List.any_cons, he, hr])]
        rw [setAssign, if_neg hr] at ih
        simpa [lookupAssign, he] using ih

/-- C7: when adding (the child is not in the activity's current list), an
ineligible child's assignment is rejected with the plan returned unchanged;
when the child is already in the list, the toggle removes it with no
eligibility check — the resulting list is the old one with the child
filtered out, in particular the child is gone. -/
theorem c7_toggle_eligibility_gate :
    (∀ (p : PlanState) (activityId kidId : String) (activity : Activity) (kid : Kid),
        kidId ∉ (lookupAssign p.assignments activityId).getD [] →
        findActivity activityId = some activity →
        p.kids.find? (fun k => k.id = kidId) = some kid →
        isKidEligibleFor activity kid = false →
        toggleAssignment activityId kidId p = p) ∧
    (∀ (p : PlanState) (activityId kidId : String),
        kidId ∈ (lookupAssign p.assignments activityId).getD [] →
        lookupAssign (toggleAssignment activityId kidId p).assignments activityId
          = some (((lookupAssign p.assignments activityId).getD []).filter fun i => i ≠ kidId) ∧
        kidId ∉ ((lookupAssign (toggleAssignment activityId kidId p).assignments
            activityId).getD [])) := by
  constructor
  · intro p activityId kidId activity kid hmem hfind hkid helig
    unfold toggleAssignment
    simp only [hfind, hkid, helig]
    rw [if_pos (by simp [hmem, helig])]
  · intro p activityId kidId hmem
    have hres : lookupAssign (toggleAssignment activityId kidId p).assignments activityId
        = some (((lookupAssign p.assignments activityId).getD []).filter fun i => i ≠ kidId) := by
      unfold toggleAssignment
      simp only [decide_eq_true hmem, if_true, Bool.false_eq_true, if_false]
      exact lookupAssign_setAssign _ _ _
    refine ⟨hres, ?_⟩
    rw [hres]
    simp

/-- Witness for C7: the I3 child is rejected when being added to the
3rd–6th theatre activity (plan unchanged), and removing an existing
assignment of the same ineligible child succeeds. -/
theorem c7_toggle_eligibility_gate_witness :
    toggleAssignment "m_theatre_3-6_mon" "kw" planC7 = planC7 ∧
    lookupAssign (toggleAssignment "m_theatre_3-6_mon" "kw" planC7b).assignments
        "m_theatre_3-6_mon" = some [] :=
  ⟨c7_toggle_eligibility_gate.1 planC7 "m_theatre_3-6_mon" "kw"
      (ACTIVITIES.get ⟨1, by decide⟩) kidC7 (by decide) (by decide) (by decide) (by decide),
   by
    have h := (c7_toggle_eligibility_gate.2 planC7b "m_theatre_3-6_mon" "kw" (by decide)).1
    simpa using h⟩

/-! ## Claim C8 -/

theorem initFinState_perKid_notMem (K : String) :
    ∀ (kids : List Kid) (st : FinState), (∀ k ∈ kids, k.id ≠ K) →
      (kids.foldl
        (fun st kid =>
          { perKid := fun k => if k = kid.id then some Agg.zero else st.perKid k,
            mkeys := fun k => if k = kid.id then [] else st.mkeys k })
        st).perKid K = st.perKid K := by
  intro kids
  induction kids with
  | nil => intro st _; rfl
  | cons kid rest ih =>
    intro st h
    rw [List.foldl_cons]
    rw [ih _ fun k hk => h k (by simp [hk])]
    have : K ≠ kid.id := fun he => h kid (by simp) he.symm
    simp [this]

theorem initFinState_perKid_none (kids : List Kid) (K : String)
    (h : ∀ k ∈ kids, k.id ≠ K) : (initFinState kids).perKid K = none := by
  unfold initFinState
  rw [initFinState_perKid_notMem K kids _ h]

theorem processPair_perKid_none (norm : Bool) (act : Activity) (st : FinState)
    (kidId K : String) (h : st.perKid K = none) :
    (processPair norm act st kidId).perKid K = none := by
  unfold processPair
  rcases hk : st.perKid kidId with _ | agg
  · exact h
  · by_cases hKk : K = kidId
    · subst hKk; rw [h] at hk; cases hk
    · simpa [hKk] using h

theorem foldPairs_perKid_none (norm : Bool) (act : Activity) (K : String) :
    ∀ (l : List String) (st : FinState), st.perKid K = none →
      (l.foldl (processPair norm act) st).perKid K = none := by
  intro l
  induction l with
  | nil => intro st h; exact h
  | cons x r ih =>
    intro st h
    rw [List.foldl_cons]
    exact ih _ (processPair_perKid_none norm act st x K h)

theorem mainPass_perKid_none (norm : Bool) (K : String) :
    ∀ (assignments : List (String × List String)) (st : FinState), st.perKid K = none →
      (mainPass norm assignments st).perKid K = none := by
  intro assignments
  induction assignments with
  | nil => intro st h; exact h
  | cons e r ih =>
    intro st h
    unfold mainPass
    rw [List.foldl_cons]
    rcases hf : findActivity e.1 with _ | act
    · simpa [hf, mainPass] using ih st h
    · have h2 := foldPairs_perKid_none norm act K e.2 st h
      simpa [hf, mainPass] using ih _ h2

theorem bundleKidStep_perKid_none (norm : Bool) (counts : String → Nat)
    (st : FinState) (kid : Kid) (K : String) (h : st.perKid K = none) :
    (bundleKidStep norm counts st kid).perKid K = none := by
  unfold bundleKidStep
  by_cases h0 : counts kid.id = 0
  · rw [if_pos h0]; exact h
  · rw [if_neg h0]
    rcases hk : st.perKid kid.id with _ | agg
    · simpa [hk] using h
    · by_cases hKk : K = kid.id
      · subst hKk; rw [h] at hk; cases hk
      · simpa [hk, hKk] using h

theorem bundlePass_perKid_none (norm : Bool) (counts : String → Nat) (K : String) :
    ∀ (kids : List Kid) (st : FinState), st.perKid K = none →
      (bundlePass norm kids counts st).perKid K = none := by
  intro kids
  induction kids with
  | nil => intro st h; exact h
  | cons kid rest ih =>
    intro st h
    unfold bundlePass
    rw [List.foldl_cons]
    have h2 := bundleKidStep_perKid_none norm counts st kid K h
    exact ih _ h2

theorem mem_catMap {α β : Type} {f : α → List β} {b : β} :
    ∀ {l : List α}, b ∈ catMap f l ↔ ∃ a ∈ l, b ∈ f a := by
  intro l
  induction l with
  | nil => simp [catMap]
  | cons x r ih => simp [catMap, ih, List.mem_append]

theorem conflictCell_fields {catalog : List Activity} {plan : PlanState} {kid : Kid}
    {d : Day} {s : Slot} {c : Crash} (h : c ∈ conflictCell catalog plan kid d s) :
    c.kidId = kid.id ∧ c.kidName = kid.name ∧ c.day = d ∧ c.slot = s := by
  unfold conflictCell at h
  rw [List.mem_filterMap] at h
  obtain ⟨ab, _, hab⟩ := h
  split at hab
  · cases hab
    exact ⟨rfl, rfl, rfl, rfl⟩
  · cases hab

/-- C8: removing a child eliminates it from the roster and from every
assignment list, preserves the referential invariant, and leaves it without
a per-kid financial aggregate and outside every conflict record. -/
theorem c8_removeKid_cascade (p : PlanState) (kidId : String) (norm : Bool) :
    (∀ k ∈ (removeKid kidId p).kids, k.id ≠ kidId) ∧
    (∀ e ∈ (removeKid kidId p).assignments, kidId ∉ e.2) ∧
    ((∀ e ∈ p.assignments, ∀ i ∈ e.2, ∃ k ∈ p.kids, k.id = i) →
      (∀ e ∈ (removeKid kidId p).assignments, ∀ i ∈ e.2,
        ∃ k ∈ (removeKid kidId p).kids, k.id = i)) ∧
    ((computeFinancials (removeKid kidId p) norm).perKid kidId = none) ∧
    (∀ c ∈ listConflicts (removeKid kidId p), c.kidId ≠ kidId) := by
  refine ⟨?_, ?_, ?_, ?_, ?_⟩
  · intro k hk
    rcases List.mem_filter.mp hk with ⟨_, hk2⟩
    simpa using hk2
  · intro e he
    rcases List.mem_map.mp he with ⟨e0, _, rfl⟩
    intro hmem
    rcases List.mem_filter.mp hmem with ⟨_, hbad⟩
    simp at hbad
  · intro hinv e he i hi
    rcases List.mem_map.mp he with ⟨e0, he0, rfl⟩
    rcases List.mem_filter.mp hi with ⟨hi0, hne⟩
    obtain ⟨k, hk, hkid⟩ := hinv e0 he0 i hi0
    refine ⟨k, List.mem_filter.mpr ⟨hk, ?_⟩, hkid⟩
    simp only [decide_eq_true_eq] at hne ⊢
    rw [hkid]
    exact hne
  · unfold computeFinancials
    apply bundlePass_perKid_none
    apply mainPass_perKid_none
    apply initFinState_perKid_none
    intro k hk
    rcases List.mem_filter.mp hk with ⟨_, hk2⟩
    simpa using hk2
  · intro c hc
    unfold listConflicts listConflictsWith at hc
    rw [mem_catMap] at hc
    obtain ⟨kid, hkid, hc2⟩ := hc
    rw [mem_catMap] at hc2
    obtain ⟨d, _, hc3⟩ := hc2
    rw [mem_catMap] at hc3
    obtain ⟨s, _, hc4⟩ := hc3
    rw [(conflictCell_fields hc4).1]
    rcases List.mem_filter.mp hkid with ⟨_, hk2⟩
    simpa using hk2

/-- Witness for C8: removing child k8b from the concrete two-child plan
leaves it with no financial aggregate, and the invariant transport applies
to the remaining assignment of k8a. -/
theorem c8_removeKid_cascade_witness :
    (computeFinancials (removeKid "k8b" planC8) true).perKid "k8b" = none ∧
    (∃ k ∈ (removeKid "k8b" planC8).kids, k.id = "k8a") :=
  ⟨(c8_removeKid_cascade planC8 "k8b" true).2.2.2.1,
   (c8_removeKid_cascade planC8 "k8b" true).2.2.1 (by decide)
     ("m_chess_1-2_tue", ["k8a"]) (by decide) "k8a" (by decide)⟩

/-! ## Claim C5 -/

theorem catMap_congr {α β : Type} {f g : α → List β} :
    ∀ {l : List α}, (∀ a ∈ l, f a = g a) → catMap f l = catMap g l := by
  intro l
  induction l with
  | nil => intro _; rfl
  | cons x r ih =>
    intro h
    rw [catMap, catMap, h x (by simp), ih fun a ha => h a (by simp [ha])]

theorem catMap_const_nil {α β : Type} : ∀ l : List α, catMap (fun _ => ([] : List β)) l = [] := by
  intro l
  induction l with
  | nil => rfl
  | cons x r ih => rw [catMap, ih]; rfl

theorem filter_catMap {α β : Type} (p : β → Bool) (f : α → List β) :
    ∀ l, (catMap f l).filter p = catMap (fun a => (f a).filter p) l := by
  intro l
  induction l with
  | nil => rfl
  | cons x r ih => rw [catMap, catMap, List.filter_append, ih]

theorem catMap_filter_prop {α β : Type} (P : α → Prop) [DecidablePred P] (g : α → List β) :
    ∀ l, catMap (fun a => if P a then g a else []) l = catMap g (l.filter fun a => P a) := by
  intro l
  induction l with
  | nil => rfl
  | cons x r ih =>
    by_cases hx : P x
    · simp only [catMap, if_pos hx, List.filter_cons, decide_eq_true hx, ih]
    · simp only [catMap, if_neg hx, List.filter_cons]
      rw [List.nil_append, ih]
      simp [hx]

theorem catMap_slots_single (g : Slot → List Crash) (S : Slot) :
    catMap (fun s => if s = S then g s else []) SLOTS = g S := by
  cases S <;> simp [SLOTS, catMap]

theorem catMap_days_single (g : Day → List Crash) (D : Day) :
    catMap (fun d => if d = D then g d else []) DAYS = g D := by
  cases D <;> simp [DAYS, catMap]

theorem filter_conflictCell (catalog : List Activity) (plan : PlanState) (kid : Kid)
    (d : Day) (s : Slot) (K : String) (D : Day) (S : Slot) :
    (conflictCell catalog plan kid d s).filter
        (fun c => c.kidId = K && c.day = D && c.slot = S)
      = if kid.id = K ∧ d = D ∧ s = S then conflictCell catalog plan kid d s else [] := by
  split
  case isTrue h =>
    apply List.filter_eq_self.mpr
    intro c hc
    obtain ⟨h1, _, h3, h4⟩ := conflictCell_fields hc
    simp [h1, h3, h4, h.1, h.2.1, h.2.2]
  case isFalse h =>
    apply List.filter_eq_nil_iff.mpr
    intro c hc
    obtain ⟨h1, _, h3, h4⟩ := conflictCell_fields hc
    simp only [h1, h3, h4]
    intro hcon
    simp only [Bool.and_eq_true, decide_eq_true_eq] at hcon
    exact h ⟨hcon.1.1, hcon.1.2, hcon.2⟩

theorem conflictCount_cell (catalog : List Activity) (plan : PlanState) (k : Kid)
    (D : Day) (S : Slot)
    (huniq : plan.kids.filter (fun k2 => k2.id = k.id) = [k]) :
    conflictCountFor catalog plan k.id D S = (conflictCell catalog plan k D S).length := by
  unfold conflictCountFor listConflictsWith
  rw [filter_catMap]
  have hkid : ∀ kid : Kid,
      (catMap (fun d => catMap (fun s => conflictCell catalog plan kid d s) SLOTS) DAYS).filter
          (fun c => c.kidId = k.id && c.day = D && c.slot = S)
        = if kid.id = k.id then conflictCell catalog plan kid D S else [] := by
    intro kid
    rw [filter_catMap]
    by_cases hk : kid.id = k.id
    · rw [if_pos hk]
      have hday : ∀ d : Day,
          (catMap (fun s => conflictCell catalog plan kid d s) SLOTS).filter
              (fun c => c.kidId = k.id && c.day = D && c.slot = S)
            = if d = D then conflictCell catalog plan kid d S else [] := by
        intro d
        rw [filter_catMap]
        by_cases hd : d = D
        · rw [if_pos hd]
          have hslot : ∀ s ∈ SLOTS,
              (conflictCell catalog plan kid d s).filter
                  (fun c => c.kidId = k.id && c.day = D && c.slot = S)
                = if s = S then conflictCell catalog plan kid d s else [] := by
            intro s _
            rw [filter_conflictCell]
            by_cases hs : s = S
            · rw [if_pos ⟨hk, hd, hs⟩, if_pos hs]
            · rw [if_neg (by tauto), if_neg hs]
          rw [catMap_congr hslot, catMap_slots_single (fun s => conflictCell catalog plan kid d s) S]
        · rw [if_neg hd]
          have hslot : ∀ s ∈ SLOTS,
              (conflictCell catalog plan kid d s).filter
                  (fun c => c.kidId = k.id && c.day = D && c.slot = S)
                = ([] : List Crash) := by
            intro s _
            rw [filter_conflictCell, if_neg (by tauto)]
          rw [catMap_congr hslot, catMap_const_nil]
      rw [catMap_congr fun d _ => hday d, catMap_days_single (fun d => conflictCell catalog plan kid d S) D]
    · rw [if_neg hk]
      have hday : ∀ d ∈ DAYS,
          (catMap (fun s => conflictCell catalog plan kid d s) SLOTS).filter
              (fun c => c.kidId = k.id && c.day = D && c.slot = S)
            = ([] : List Crash) := by
        intro d _
        rw [filter_catMap]
        have hslot : ∀ s ∈ SLOTS,
            (conflictCell catalog plan kid d s).filter
                (fun c => c.kidId = k.id && c.day = D && c.slot = S)
              = ([] : List Crash) := by
          intro s _
          rw [filter_conflictCell, if_neg (by tauto)]
        rw [catMap_congr hslot, catMap_const_nil]
      rw [catMap_congr hday, catMap_const_nil]
  rw [catMap_congr fun kid _ => hkid kid]
  rw [catMap_filter_prop (fun kid : Kid => kid.id = k.id)
      (fun kid => conflictCell catalog plan kid D S) plan.kids]
  rw [huniq]
  rw [catMap, catMap, List.append_nil]

theorem pairsOf_two {α : Type} (A B : α) : pairsOf [A, B] = [(A, B)] := by
  simp [pairsOf]

theorem conflictCell_two (catalog : List Activity) (plan : PlanState) (k : Kid)
    (D : Day) (S : Slot) (A B : Activity)
    (hsel : selectedFor catalog plan k.id D S = [A, B]) :
    conflictCell catalog plan k D S
      = if conflictPair S A B then [⟨k.id, k.name, D, S, A, B⟩] else [] := by
  unfold conflictCell
  rw [hsel, pairsOf_two]
  rcases hcp : conflictPair S A B with _ | _ <;> simp [hcp]

theorem conflictPair_both_fallback (S : Slot) (A B : Activity)
    (hA : A.time = none) (hB : B.time = none) : conflictPair S A B = true := by
  unfold conflictPair timeOr
  rw [hA, hB]
  cases S <;> decide

theorem conflictPair_parsed (S : Slot) (A B : Activity) (ta tb : String) (ra rb : Nat × Nat)
    (hA : A.time = some ta) (hB : B.time = some tb)
    (hra : parseTimeRange (some ta) = some ra) (hrb : parseTimeRange (some tb) = some rb) :
    conflictPair S A B = overlap ra rb := by
  have hta : ¬(ta = "") := by
    intro h; subst h; simp [parseTimeRange] at hra
  have htb : ¬(tb = "") := by
    intro h; subst h; simp [parseTimeRange] at hrb
  unfold conflictPair timeOr
  rw [hA, hB]
  simp only [hta, htb, ite_false]
  rw [hra, hrb]

theorem conflictPair_parse_fail (S : Slot) (A B : Activity)
    (h : parseTimeRange (some (timeOr A.time (slotFallback S))) = none ∨
         parseTimeRange (some (timeOr B.time (slotFallback S))) = none) :
    conflictPair S A B = true := by
  unfold conflictPair
  rcases h with h | h
  · rw [h]
  · rcases h2 : parseTimeRange (some (timeOr A.time (slotFallback S))) with _ | ra
    · rfl
    · rw [h]

/-- C5: for a child with a unique id assigned to exactly two catalog
activities of the same day and slot, `listConflicts` produces exactly one
record for that (child, day, slot) triple when both activities lack a time
field (the shared slot fallback overlaps itself); zero records when both
times parse to non-overlapping ranges; and one record whenever either
resolved time string fails to parse. -/
theorem c5_conflict_pairs :
    (∀ (catalog : List Activity) (plan : PlanState) (k : Kid) (D : Day) (S : Slot)
        (A B : Activity),
        plan.kids.filter (fun k2 => k2.id = k.id) = [k] →
        selectedFor catalog plan k.id D S = [A, B] →
        A.time = none → B.time = none →
        conflictCountFor catalog plan k.id D S = 1) ∧
    (∀ (catalog : List Activity) (plan : PlanState) (k : Kid) (D : Day) (S : Slot)
        (A B : Activity) (ta tb : String) (ra rb : Nat × Nat),
        plan.kids.filter (fun k2 => k2.id = k.id) = [k] →
        selectedFor catalog plan k.id D S = [A, B] →
        A.time = some ta → B.time = some tb →
        parseTimeRange (some ta) = some ra → parseTimeRange (some tb) = some rb →
        overlap ra rb = false →
        conflictCountFor catalog plan k.id D S = 0) ∧
    (∀ (catalog : List Activity) (plan : PlanState) (k : Kid) (D : Day) (S : Slot)
        (A B : Activity),
        plan.kids.filter (fun k2 => k2.id = k.id) = [k] →
        selectedFor catalog plan k.id D S = [A, B] →
        (parseTimeRange (some (timeOr A.time (slotFallback S))) = none ∨
         parseTimeRange (some (timeOr B.time (slotFallback S))) = none) →
        conflictCountFor catalog plan k.id D S = 1) := by
  refine ⟨?_, ?_, ?_⟩
  · intro catalog plan k D S A B huniq hsel hA hB
    rw [conflictCount_cell catalog plan k D S huniq,
      conflictCell_two catalog plan k D S A B hsel,
      if_pos (conflictPair_both_fallback S A B hA hB)]
    rfl
  · intro catalog plan k D S A B ta tb ra rb huniq hsel hA hB hra hrb hov
    rw [conflictCount_cell catalog plan k D S huniq,
      conflictCell_two catalog plan k D S A B hsel,
      conflictPair_parsed S A B ta tb ra rb hA hB hra hrb, hov]
    rfl
  · intro catalog plan k D S A B huniq hsel h
    rw [conflictCount_cell catalog plan k D S huniq,
      conflictCell_two catalog plan k D S A B hsel,
      if_pos (conflictPair_parse_fail S A B h)]
    rfl

/-- Witness for C5: the three scenarios at concrete two-activity catalogs
(no time fields; explicit non-overlapping times; one unparseable time). -/
theorem c5_conflict_pairs_witness :
    conflictCountFor [actW1, actW2] planW5 "kw5" Day.Tuesday Slot.Midday = 1 ∧
    conflictCountFor [actW1t, actW2t] planW5 "kw5" Day.Tuesday Slot.Midday = 0 ∧
    conflictCountFor [actW1t, actW2g] planW5 "kw5" Day.Tuesday Slot.Midday = 1 :=
  ⟨c5_conflict_pairs.1 [actW1, actW2] planW5 kidW5 Day.Tuesday Slot.Midday actW1 actW2
      (by decide) (by decide) (by decide) (by decide),
   c5_conflict_pairs.2.1 [actW1t, actW2t] planW5 kidW5 Day.Tuesday Slot.Midday actW1t actW2t
      "12:30–13:00" "13:00–13:30" (750, 780) (780, 810)
      (by decide) (by decide) (by decide) (by decide) (by decide) (by decide) (by decide),
   c5_conflict_pairs.2.2 [actW1t, actW2g] planW5 kidW5 Day.Tuesday Slot.Midday actW1t actW2g
      (by decide) (by decide) (Or.inr (by decide))⟩

/-! ## Financial engine: per-kid projection lemmas -/

theorem processPair_proj (norm : Bool) (act : Activity) (st : FinState) (kidId K : String) :
    slotOf (processPair norm act st kidId) K
      = if kidId = K then kidStep norm (slotOf st K) act else slotOf st K := by
  unfold processPair kidStep slotOf
  by_cases hk : kidId = K
  · subst hk
    rcases hpk : st.perKid kidId with _ | agg
    · simp [hpk]
    · simp only [hpk, if_pos rfl]
      rcases hmf : matFee act with _ | kf <;> simp [hmf]
  · have hk2 : ¬(K = kidId) := fun h => hk h.symm
    rcases hpk : st.perKid kidId with _ | agg
    · simp [hpk, hk]
    · simp [hpk, hk, hk2]

theorem foldPairs_proj (norm : Bool) (act : Activity) (K : String) :
    ∀ (l : List String) (st : FinState),
      slotOf (l.foldl (processPair norm act) st) K
        = (l.filter fun i => i = K).foldl (fun s _ => kidStep norm s act) (slotOf st K) := by
  intro l
  induction l with
  | nil => intro st; rfl
  | cons x r ih =>
    intro st
    rw [List.foldl_cons, ih, List.filter_cons]
    by_cases hx : x = K
    · rw [if_pos (by simpa using hx), List.foldl_cons]
      rw [processPair_proj, if_pos hx]
    · rw [if_neg (by simpa using hx)]
      rw [processPair_proj, if_neg hx]

theorem catMap_append {α β : Type} (f : α → List β) :
    ∀ l1 l2 : List α, catMap f (l1 ++ l2) = catMap f l1 ++ catMap f l2 := by
  intro l1 l2
  induction l1 with
  | nil => rfl
  | cons x r ih => simp [catMap, ih]

theorem mainPass_proj (norm : Bool) (K : String) :
    ∀ (assignments : List (String × List String)) (st : FinState),
      slotOf (mainPass norm assignments st) K
        = (kidActs assignments K).foldl (kidStep norm) (slotOf st K) := by
  intro assignments
  induction assignments with
  | nil => intro st; rfl
  | cons e r ih =>
    intro st
    unfold mainPass kidActs
    rw [List.foldl_cons, catMap]
    rcases hf : findActivity e.1 with _ | act
    · rw [List.nil_append]
      have h2 := ih st
      unfold mainPass kidActs at h2
      exact h2
    · rw [List.foldl_append]
      have h2 := ih (e.2.foldl (processPair norm act) st)
      unfold mainPass kidActs at h2
      rw [h2, foldPairs_proj]
      rw [List.foldl_map]

theorem psyStep_bundle (act : Activity) (cs : String → Nat) (kidId : String)
    (hb : act.bundleKey = some "psychomotricity") :
    psyStep act cs kidId = fun k => if k = kidId then cs kidId + 1 else cs k := by
  unfold psyStep
  rw [if_pos hb]

theorem psyStep_other (act : Activity) (cs : String → Nat) (kidId : String)
    (hb : ¬(act.bundleKey = some "psychomotricity")) :
    psyStep act cs kidId = cs := by
  unfold psyStep
  rw [if_neg hb]

theorem psychoFold_proj (act : Activity) (K : String) :
    ∀ (l : List String) (counts : String → Nat),
      (l.foldl (psyStep act) counts) K
        = counts K + (if act.bundleKey = some "psychomotricity" then
            (l.filter fun i => i = K).length else 0) := by
  intro l
  induction l with
  | nil => intro counts; simp
  | cons x r ih =>
    intro counts
    rw [List.foldl_cons, ih, List.filter_cons]
    by_cases hb : act.bundleKey = some "psychomotricity"
    · rw [psyStep_bundle act counts x hb, if_pos hb, if_pos hb]
      by_cases hx : x = K
      · subst hx
        simp
        try omega
      · have hKx : ¬(K = x) := fun h => hx h.symm
        simp [hKx, hx]
        try omega
    · rw [psyStep_other act counts x hb, if_neg hb, if_neg hb]

theorem countP_map_const (act : Activity) :
    ∀ l : List String,
      ((l.map fun _ => act).countP fun a => a.bundleKey = some "psychomotricity")
        = if act.bundleKey = some "psychomotricity" then l.length else 0 := by
  intro l
  induction l with
  | nil => simp
  | cons y t ih =>
    rw [List.map_cons, List.countP_cons, ih]
    by_cases hb : act.bundleKey = some "psychomotricity"
    · rw [if_pos hb, if_pos hb, if_pos (by simpa using hb)]
      simp
    · rw [if_neg hb, if_neg hb, if_neg (by simpa using hb)]

theorem psychoScan_proj (K : String) :
    ∀ (assignments : List (String × List String)) (counts : String → Nat),
      (assignments.foldl
        (fun counts entry =>
          match findActivity entry.1 with
          | none => counts
          | some act => entry.2.foldl (psyStep act) counts)
        counts) K
      = counts K + bundleCount (kidActs assignments K) := by
  intro assignments
  induction assignments with
  | nil => intro counts; simp [kidActs, catMap, bundleCount]
  | cons e r ih =>
    intro counts
    rw [List.foldl_cons]
    unfold kidActs
    rw [catMap]
    rcases hf : findActivity e.1 with _ | act
    · rw [List.nil_append]
      have h2 := ih counts
      unfold kidActs at h2
      rw [h2]
    · have h2 := ih (e.2.foldl (psyStep act) counts)
      unfold kidActs at h2
      rw [h2, psychoFold_proj]
      unfold bundleCount
      rw [List.countP_append, countP_map_const]
      omega

theorem psychoScan_eval (assignments : List (String × List String)) (K : String) :
    psychoScan assignments K = bundleCount (kidActs assignments K) := by
  unfold psychoScan
  rw [psychoScan_proj]
  omega

theorem initFinState_slot_fold (K : String) :
    ∀ (kids : List Kid) (st : FinState),
      slotOf (kids.foldl
        (fun st kid =>
          { perKid := fun k => if k = kid.id then some Agg.zero else st.perKid k,
            mkeys := fun k => if k = kid.id then [] else st.mkeys k })
        st) K
      = if kids.any (fun kid => kid.id = K) then (some Agg.zero, []) else slotOf st K := by
  intro kids
  induction kids with
  | nil => intro st; simp
  | cons kid rest ih =>
    intro st
    rw [List.foldl_cons, ih, List.any_cons]
    by_cases hrest : rest.any (fun kid => kid.id = K) = true
    · rw [if_pos hrest, if_pos (by simp [hrest])]
    · rw [if_neg hrest]
      by_cases hk : kid.id = K
      · rw [if_pos (by simp [hk])]
        unfold slotOf
        simp [hk.symm]
      · rw [if_neg (by simp [hk, hrest])]
        unfold slotOf
        have hKk : ¬(K = kid.id) := fun h => hk h.symm
        simp [hKk]

theorem initFinState_slot (kids : List Kid) (K : String) :
    slotOf (initFinState kids) K
      = if kids.any (fun kid => kid.id = K) then (some Agg.zero, []) else (none, []) := by
  unfold initFinState
  rw [initFinState_slot_fold]
  rfl

theorem bundleKidStep_proj (norm : Bool) (counts : String → Nat)
    (st : FinState) (kid : Kid) (K : String) :
    (bundleKidStep norm counts st kid).perKid K
      = if kid.id = K then bundleStep norm counts K (st.perKid K) else st.perKid K := by
  by_cases hk : kid.id = K
  · subst hk
    rw [if_pos rfl]
    unfold bundleKidStep bundleStep
    by_cases h0 : counts kid.id = 0
    · rw [if_pos h0, if_pos h0]
    · rw [if_neg h0, if_neg h0]
      rcases hpk : st.perKid kid.id with _ | agg <;> simp [hpk, bundleTermFee]
  · rw [if_neg hk]
    unfold bundleKidStep
    by_cases h0 : counts kid.id = 0
    · rw [if_pos h0]
    · rw [if_neg h0]
      have hKk : ¬(K = kid.id) := fun h => hk h.symm
      rcases hpk : st.perKid kid.id with _ | agg <;> simp [hpk, hKk]

theorem bundlePass_proj (norm : Bool) (counts : String → Nat) (K : String) :
    ∀ (kids : List Kid) (st : FinState),
      (bundlePass norm kids counts st).perKid K
        = (kids.filter fun kid => kid.id = K).foldl
            (fun a _ => bundleStep norm counts K a) (st.perKid K) := by
  intro kids
  induction kids with
  | nil => intro st; rfl
  | cons kid rest ih =>
    intro st
    unfold bundlePass
    rw [List.foldl_cons]
    have hstep := ih (bundleKidStep norm counts st kid)
    unfold bundlePass at hstep
    rw [hstep, bundleKidStep_proj]
    by_cases hk : kid.id = K
    · rw [if_pos hk]
      rw [show List.filter (fun kid => decide (kid.id = K)) (kid :: rest)
          = kid :: List.filter (fun kid => decide (kid.id = K)) rest from by
        simp [List.filter_cons, hk]]
      rw [List.foldl_cons]
    · rw [if_neg hk]
      rw [show List.filter (fun kid => decide (kid.id = K)) (kid :: rest)
          = List.filter (fun kid => decide (kid.id = K)) rest from by
        simp [List.filter_cons, hk]]

theorem kidStep_some_none (norm : Bool) (act : Activity) (agg : Agg) (seen : List String)
    (hmf : matFee act = none) :
    kidStep norm (some agg, seen) act
      = (some { monthly := agg.monthly
                  + (if act.bundleKey = some "psychomotricity" then 0
                     else if act.period = Period.month then act.price
                     else if norm then act.price / 3 else 0),
                term := agg.term
                  + (if act.bundleKey = some "psychomotricity" then 0
                     else if act.period = Period.month then 0 else act.price),
                monthItems := agg.monthItems,
                materials := agg.materials }, seen) := by
  unfold kidStep
  simp only [hmf]
  by_cases hb : act.bundleKey = some "psychomotricity"
  · simp [hb]
  · by_cases hp : act.period = Period.month
    · simp [hb, hp]
    · simp [hb, hp]

theorem kidStep_some_seen (norm : Bool) (act : Activity) (agg : Agg) (seen : List String)
    (kf : String × Rat) (hmf : matFee act = some kf) (hseen : kf.1 ∈ seen) :
    kidStep norm (some agg, seen) act
      = (some { monthly := agg.monthly
                  + (if act.bundleKey = some "psychomotricity" then 0
                     else if act.period = Period.month then act.price
                     else if norm then act.price / 3 else 0),
                term := agg.term
                  + (if act.bundleKey = some "psychomotricity" then 0
                     else if act.period = Period.month then 0 else act.price),
                monthItems := agg.monthItems,
                materials := agg.materials }, seen) := by
  unfold kidStep
  simp only [hmf]
  by_cases hb : act.bundleKey = some "psychomotricity"
  · simp [hb, hseen]
  · by_cases hp : act.period = Period.month
    · simp [hb, hp, hseen]
    · simp [hb, hp, hseen]

theorem kidStep_some_new (norm : Bool) (act : Activity) (agg : Agg) (seen : List String)
    (kf : String × Rat) (hmf : matFee act = some kf) (hseen : kf.1 ∉ seen) :
    kidStep norm (some agg, seen) act
      = (some { monthly := agg.monthly
                  + (if act.bundleKey = some "psychomotricity" then 0
                     else if act.period = Period.month then act.price
                     else if norm then act.price / 3 else 0),
                term := agg.term
                  + (if act.bundleKey = some "psychomotricity" then 0
                     else if act.period = Period.month then 0 else act.price),
                monthItems := agg.monthItems,
                materials := agg.materials + kf.2 }, kf.1 :: seen) := by
  unfold kidStep
  simp only [hmf]
  by_cases hb : act.bundleKey = some "psychomotricity"
  · simp [hb, hseen]
  · by_cases hp : act.period = Period.month
    · simp [hb, hp, hseen]
    · simp [hb, hp, hseen]

theorem monthContrib_cons (norm : Bool) (act : Activity) (r : List Activity) :
    monthContrib norm (act :: r)
      = (if act.bundleKey = some "psychomotricity" then 0
         else if act.period = Period.month then act.price
         else if norm then act.price / 3 else 0) + monthContrib norm r := rfl

theorem termContrib_cons (act : Activity) (r : List Activity) :
    termContrib (act :: r)
      = (if act.bundleKey = some "psychomotricity" then 0
         else if act.period = Period.month then 0 else act.price) + termContrib r := rfl

theorem matContrib_cons_none (seen : List String) (act : Activity) (r : List Activity)
    (hmf : matFee act = none) : matContrib seen (act :: r) = matContrib seen r := by
  conv_lhs => unfold matContrib
  rw [hmf]

theorem matContrib_cons_seen (seen : List String) (act : Activity) (r : List Activity)
    (kf : String × Rat) (hmf : matFee act = some kf) (hseen : kf.1 ∈ seen) :
    matContrib seen (act :: r) = matContrib seen r := by
  conv_lhs => unfold matContrib
  rw [hmf]
  simp only [if_pos hseen]

theorem matContrib_cons_new (seen : List String) (act : Activity) (r : List Activity)
    (kf : String × Rat) (hmf : matFee act = some kf) (hseen : kf.1 ∉ seen) :
    matContrib seen (act :: r) = kf.2 + matContrib (kf.1 :: seen) r := by
  conv_lhs => unfold matContrib
  rw [hmf]
  simp only [if_neg hseen]

theorem finalKeys_cons_none (seen : List String) (act : Activity) (r : List Activity)
    (hmf : matFee act = none) : finalKeys seen (act :: r) = finalKeys seen r := by
  conv_lhs => unfold finalKeys
  rw [hmf]

theorem finalKeys_cons_seen (seen : List String) (act : Activity) (r : List Activity)
    (kf : String × Rat) (hmf : matFee act = some kf) (hseen : kf.1 ∈ seen) :
    finalKeys seen (act :: r) = finalKeys seen r := by
  conv_lhs => unfold finalKeys
  rw [hmf]
  simp only [if_pos hseen]

theorem finalKeys_cons_new (seen : List String) (act : Activity) (r : List Activity)
    (kf : String × Rat) (hmf : matFee act = some kf) (hseen : kf.1 ∉ seen) :
    finalKeys seen (act :: r) = finalKeys (kf.1 :: seen) r := by
  conv_lhs => unfold finalKeys
  rw [hmf]
  simp only [if_neg hseen]

theorem kidFold_eval (norm : Bool) :
    ∀ (acts : List Activity) (agg : Agg) (seen : List String),
      acts.foldl (kidStep norm) (some agg, seen)
        = (some { monthly := agg.monthly + monthContrib norm acts,
                  term := agg.term + termContrib acts,
                  monthItems := agg.monthItems,
                  materials := agg.materials + matContrib seen acts },
           finalKeys seen acts) := by
  intro acts
  induction acts with
  | nil =>
    intro agg seen
    simp [monthContrib, termContrib, matContrib, finalKeys]
  | cons act r ih =>
    intro agg seen
    rw [List.foldl_cons, monthContrib_cons, termContrib_cons]
    rcases hmf : matFee act with _ | kf
    · rw [kidStep_some_none norm act agg seen hmf, ih,
        matContrib_cons_none seen act r hmf, finalKeys_cons_none seen act r hmf]
      simp [add_assoc]
    · by_cases hseen : kf.1 ∈ seen
      · rw [kidStep_some_seen norm act agg seen kf hmf hseen, ih,
          matContrib_cons_seen seen act r kf hmf hseen,
          finalKeys_cons_seen seen act r kf hmf hseen]
        simp [add_assoc]
      · rw [kidStep_some_new norm act agg seen kf hmf hseen, ih,
          matContrib_cons_new seen act r kf hmf hseen,
          finalKeys_cons_new seen act r kf hmf hseen]
        simp [add_assoc]

/-- Per-kid reading of `computeFinancials` for a kid whose id occurs once in
the roster: the per-item contributions (bundle activities' own prices
excluded by `monthContrib`/`termContrib`), the deduplicated materials
charges, and the capped bundle fee added only when at least one bundle
selection exists (and to monthly only under normalization). -/
theorem computeFinancials_perKid (plan : PlanState) (norm : Bool) (k : Kid)
    (huniq : plan.kids.filter (fun k2 => k2.id = k.id) = [k]) :
    (computeFinancials plan norm).perKid k.id =
      some { monthly := monthContrib norm (kidActs plan.assignments k.id)
               + (if bundleCount (kidActs plan.assignments k.id) = 0 then 0
                  else if norm then bundleTermFee (bundleCount (kidActs plan.assignments k.id)) / 3
                  else 0),
             term := termContrib (kidActs plan.assignments k.id)
               + (if bundleCount (kidActs plan.assignments k.id) = 0 then 0
                  else bundleTermFee (bundleCount (kidActs plan.assignments k.id))),
             monthItems := 0,
             materials := matContrib [] (kidActs plan.assignments k.id) } := by
  have hmem : k ∈ plan.kids := by
    have h2 : k ∈ plan.kids.filter (fun k2 => k2.id = k.id) := by rw [huniq]; simp
    exact (List.mem_filter.mp h2).1
  have hany : plan.kids.any (fun kid => kid.id = k.id) = true := by
    rw [List.any_eq_true]
    exact ⟨k, hmem, by simp⟩
  have hst0 : slotOf (initFinState plan.kids) k.id = (some Agg.zero, []) := by
    rw [initFinState_slot, if_pos hany]
  have hst1 : slotOf (mainPass norm plan.assignments (initFinState plan.kids)) k.id
      = (some { monthly := monthContrib norm (kidActs plan.assignments k.id),
                term := termContrib (kidActs plan.assignments k.id),
                monthItems := 0,
                materials := matContrib [] (kidActs plan.assignments k.id) },
         finalKeys [] (kidActs plan.assignments k.id)) := by
    rw [mainPass_proj, hst0, kidFold_eval]
    simp [Agg.zero]
  have hperKid1 : (mainPass norm plan.assignments (initFinState plan.kids)).perKid k.id
      = some { monthly := monthContrib norm (kidActs plan.assignments k.id),
               term := termContrib (kidActs plan.assignments k.id),
               monthItems := 0,
               materials := matContrib [] (kidActs plan.assignments k.id) } := by
    have h2 := congrArg Prod.fst hst1
    simpa [slotOf] using h2
  show (bundlePass norm plan.kids (psychoScan plan.assignments)
      (mainPass norm plan.assignments (initFinState plan.kids))).perKid k.id = _
  rw [bundlePass_proj, huniq, List.foldl_cons, List.foldl_nil, hperKid1]
  unfold bundleStep
  rw [psychoScan_eval]
  by_cases h0 : bundleCount (kidActs plan.assignments k.id) = 0
  · rw [if_pos h0]
    simp [h0]
  · rw [if_neg h0]
    simp [h0]

/-! ## Claim C3 -/

/-- C3: a child with at least one psychomotricity-bundle selection is
charged the flat capped bundle fee on top of the per-item sums (from which
`monthContrib`/`termContrib` exclude bundle activities' own prices by
definition); the fee is 75 for one selection and 135 for two or more (never
the 150 per-item sum), and it reaches the monthly column as fee/3 only when
normalization is on.  The concrete conjuncts evaluate the
Monday+Thursday-psychomotricity plan: term 135, monthly 45 normalized and 0
unnormalized. -/
theorem c3_bundle_cap :
    (∀ (plan : PlanState) (norm : Bool) (k : Kid),
        plan.kids.filter (fun k2 => k2.id = k.id) = [k] →
        1 ≤ bundleCount (kidActs plan.assignments k.id) →
        (computeFinancials plan norm).perKid k.id =
          some { monthly := monthContrib norm (kidActs plan.assignments k.id)
                   + (if norm then
                        bundleTermFee (bundleCount (kidActs plan.assignments k.id)) / 3
                      else 0),
                 term := termContrib (kidActs plan.assignments k.id)
                   + bundleTermFee (bundleCount (kidActs plan.assignments k.id)),
                 monthItems := 0,
                 materials := matContrib [] (kidActs plan.assignments k.id) }) ∧
    bundleTermFee 1 = 75 ∧ (∀ n, 2 ≤ n → bundleTermFee n = 135) ∧
    ((computeFinancials psyPlan true).perKid kidPsy.id = some ⟨45, 135, 0, 0⟩) ∧
    ((computeFinancials psyPlan false).perKid kidPsy.id = some ⟨0, 135, 0, 0⟩) := by
  have hacts : kidActs psyPlan.assignments kidPsy.id = [actPsyMo, actPsyTh] := by decide
  refine ⟨?_, by decide, ?_, ?_, ?_⟩
  · intro plan norm k huniq hn
    rw [computeFinancials_perKid plan norm k huniq]
    have h0 : ¬(bundleCount (kidActs plan.assignments k.id) = 0) := by omega
    rw [if_neg h0, if_neg h0]
  · intro n hn
    unfold bundleTermFee
    rw [if_pos hn]
  · rw [computeFinancials_perKid psyPlan true kidPsy (by decide), hacts]
    norm_num [monthContrib, termContrib, matContrib, bundleCount, bundleTermFee, matFee,
      actPsyMo, actPsyTh]
  · rw [computeFinancials_perKid psyPlan false kidPsy (by decide), hacts]
    norm_num [monthContrib, termContrib, matContrib, bundleCount, bundleTermFee, matFee,
      actPsyMo, actPsyTh]

/-- Witness for C3: the general bundle formula applied to the concrete
two-selection plan. -/
theorem c3_bundle_cap_witness :
    (computeFinancials psyPlan true).perKid kidPsy.id =
      some { monthly := monthContrib true (kidActs psyPlan.assignments kidPsy.id)
               + (if true then
                    bundleTermFee (bundleCount (kidActs psyPlan.assignments kidPsy.id)) / 3
                  else 0),
             term := termContrib (kidActs psyPlan.assignments kidPsy.id)
               + bundleTermFee (bundleCount (kidActs psyPlan.assignments kidPsy.id)),
             monthItems := 0,
             materials := matContrib [] (kidActs psyPlan.assignments kidPsy.id) } :=
  c3_bundle_cap.1 psyPlan true kidPsy (by decide) (by decide)

/-! ## Claim C4 -/

theorem chargedKeys_cons_none (seen : List String) (act : Activity) (r : List Activity)
    (hmf : matFee act = none) : chargedKeys seen (act :: r) = chargedKeys seen r := by
  conv_lhs => unfold chargedKeys
  rw [hmf]

theorem chargedKeys_cons_seen (seen : List String) (act : Activity) (r : List Activity)
    (kf : String × Rat) (hmf : matFee act = some kf) (hseen : kf.1 ∈ seen) :
    chargedKeys seen (act :: r) = chargedKeys seen r := by
  conv_lhs => unfold chargedKeys
  rw [hmf]
  simp only [if_pos hseen]

theorem chargedKeys_cons_new (seen : List String) (act : Activity) (r : List Activity)
    (kf : String × Rat) (hmf : matFee act = some kf) (hseen : kf.1 ∉ seen) :
    chargedKeys seen (act :: r) = kf.1 :: chargedKeys (kf.1 :: seen) r := by
  conv_lhs => unfold chargedKeys
  rw [hmf]
  simp only [if_neg hseen]

theorem kidActs_mem_catalog (assignments : List (String × List String)) (K : String) :
    ∀ a ∈ kidActs assignments K, a ∈ ACTIVITIES := by
  intro a ha
  unfold kidActs at ha
  rw [mem_catMap] at ha
  obtain ⟨e, _, ha2⟩ := ha
  rcases hf : findActivity e.1 with _ | act
  · rw [hf] at ha2
    cases ha2
  · rw [hf] at ha2
    rcases List.mem_map.mp ha2 with ⟨_, _, rfl⟩
    exact List.mem_of_find?_eq_some hf

theorem catalog_fee_consistent :
    ∀ a ∈ ACTIVITIES, ∀ kf : String × Rat, matFee a = some kf → kf.2 = feeOfKey kf.1 := by
  have hall : (ACTIVITIES.all fun a =>
      match matFee a with
      | some kf => decide (kf.2 = feeOfKey kf.1)
      | none => true) = true := by decide
  rw [List.all_eq_true] at hall
  intro a ha kf hkf
  have h2 := hall a ha
  rw [hkf] at h2
  simpa using h2

theorem matContrib_eval :
    ∀ (acts : List Activity) (seen : List String), (∀ a ∈ acts, a ∈ ACTIVITIES) →
      matContrib seen acts = ((chargedKeys seen acts).map feeOfKey).sum := by
  intro acts
  induction acts with
  | nil => intro seen _; simp [matContrib, chargedKeys]
  | cons act r ih =>
    intro seen hsub
    have hsubr : ∀ a ∈ r, a ∈ ACTIVITIES := fun a ha => hsub a (by simp [ha])
    rcases hmf : matFee act with _ | kf
    · rw [matContrib_cons_none seen act r hmf, chargedKeys_cons_none seen act r hmf,
        ih seen hsubr]
    · by_cases hseen : kf.1 ∈ seen
      · rw [matContrib_cons_seen seen act r kf hmf hseen,
          chargedKeys_cons_seen seen act r kf hmf hseen, ih seen hsubr]
      · rw [matContrib_cons_new seen act r kf hmf hseen,
          chargedKeys_cons_new seen act r kf hmf hseen,
          List.map_cons, List.sum_cons, ih (kf.1 :: seen) hsubr]
        congr 1
        exact catalog_fee_consistent act (hsub act (by simp)) kf hmf

theorem chargedKeys_disjoint_seen :
    ∀ (acts : List Activity) (seen : List String) (key : String),
      key ∈ chargedKeys seen acts → key ∉ seen := by
  intro acts
  induction acts with
  | nil => intro seen key h; simp [chargedKeys] at h
  | cons act r ih =>
    intro seen key h
    rcases hmf : matFee act with _ | kf
    · rw [chargedKeys_cons_none seen act r hmf] at h
      exact ih seen key h
    · by_cases hseen : kf.1 ∈ seen
      · rw [chargedKeys_cons_seen seen act r kf hmf hseen] at h
        exact ih seen key h
      · rw [chargedKeys_cons_new seen act r kf hmf hseen] at h
        rcases List.mem_cons.mp h with rfl | h2
        · exact hseen
        · intro hks
          exact ih (kf.1 :: seen) key h2 (by simp [hks])

theorem chargedKeys_nodup :
    ∀ (acts : List Activity) (seen : List String), (chargedKeys seen acts).Nodup := by
  intro acts
  induction acts with
  | nil => intro seen; simp [chargedKeys]
  | cons act r ih =>
    intro seen
    rcases hmf : matFee act with _ | kf
    · rw [chargedKeys_cons_none seen act r hmf]
      exact ih seen
    · by_cases hseen : kf.1 ∈ seen
      · rw [chargedKeys_cons_seen seen act r kf hmf hseen]
        exact ih seen
      · rw [chargedKeys_cons_new seen act r kf hmf hseen]
        rw [List.nodup_cons]
        refine ⟨?_, ih (kf.1 :: seen)⟩
        intro hmem2
        exact chargedKeys_disjoint_seen r (kf.1 :: seen) kf.1 hmem2 (by simp)

theorem mem_chargedKeys :
    ∀ (acts : List Activity) (seen : List String) (key : String),
      key ∈ chargedKeys seen acts ↔
        (key ∉ seen ∧ ∃ a ∈ acts, ∃ f : Rat, matFee a = some (key, f)) := by
  intro acts
  induction acts with
  | nil => intro seen key; simp [chargedKeys]
  | cons act r ih =>
    intro seen key
    rcases hmf : matFee act with _ | kf
    · rw [chargedKeys_cons_none seen act r hmf, ih]
      constructor
      · rintro ⟨h1, a, ha, f, hf⟩
        exact ⟨h1, a, by simp [ha], f, hf⟩
      · rintro ⟨h1, a, ha, f, hf⟩
        rcases List.mem_cons.mp ha with rfl | ha2
        · rw [hmf] at hf
          cases hf
        · exact ⟨h1, a, ha2, f, hf⟩
    · by_cases hseen : kf.1 ∈ seen
      · rw [chargedKeys_cons_seen seen act r kf hmf hseen, ih]
        constructor
        · rintro ⟨h1, a, ha, f, hf⟩
          exact ⟨h1, a, by simp [ha], f, hf⟩
        · rintro ⟨h1, a, ha, f, hf⟩
          rcases List.mem_cons.mp ha with rfl | ha2
          · rw [hmf] at hf
            have hk : kf.1 = key := congrArg Prod.fst (Option.some.inj hf)
            exact absurd (hk ▸ hseen) h1
          · exact ⟨h1, a, ha2, f, hf⟩
      · rw [chargedKeys_cons_new seen act r kf hmf hseen]
        constructor
        · intro h
          rcases List.mem_cons.mp h with rfl | h2
          · exact ⟨hseen, act, by simp, kf.2, by rw [hmf]⟩
          · obtain ⟨h1, a, ha, f, hf⟩ := (ih (kf.1 :: seen) key).mp h2
            have hkey : key ∉ seen := fun hk => h1 (by simp [hk])
            exact ⟨hkey, a, by simp [ha], f, hf⟩
        · rintro ⟨h1, a, ha, f, hf⟩
          rcases List.mem_cons.mp ha with rfl | ha2
          · rw [hmf] at hf
            have hk : kf.1 = key := congrArg Prod.fst (Option.some.inj hf)
            rw [← hk]
            exact List.mem_cons_self _ _
          · by_cases hkk : key = kf.1
            · rw [hkk]
              exact List.mem_cons_self _ _
            · apply List.mem_cons_of_mem
              rw [ih]
              exact ⟨by simp [hkk, h1], a, ha2, f, hf⟩

/-- C4: for every plan and every child with a unique roster id, the child's
materials total is the sum, over a duplicate-free list containing each
chargeable materials key exactly once, of that key's (catalog-wide unique)
fee — so a key shared by several of the child's activities is charged at
most once.  The concrete conjunct evaluates the plan assigning both
Monday and Wednesday English (shared key `unicor-english`, fee 40) to one
child: materials are exactly 40, not 80. -/
theorem c4_materials_once :
    (∀ (plan : PlanState) (norm : Bool) (k : Kid),
        plan.kids.filter (fun k2 => k2.id = k.id) = [k] →
        ∃ agg, (computeFinancials plan norm).perKid k.id = some agg ∧
          agg.materials
            = ((chargedKeys [] (kidActs plan.assignments k.id)).map feeOfKey).sum ∧
          (chargedKeys [] (kidActs plan.assignments k.id)).Nodup ∧
          (∀ key, key ∈ chargedKeys [] (kidActs plan.assignments k.id) ↔
            ∃ a ∈ kidActs plan.assignments k.id, ∃ f : Rat, matFee a = some (key, f))) ∧
    ((computeFinancials engPlan true).perKid kidEng.id = some ⟨116, 0, 0, 40⟩) := by
  constructor
  · intro plan norm k huniq
    refine ⟨_, computeFinancials_perKid plan norm k huniq, ?_, chargedKeys_nodup _ _, ?_⟩
    · exact matContrib_eval _ [] (kidActs_mem_catalog _ _)
    · intro key
      rw [mem_chargedKeys]
      simp
  · have hacts : kidActs engPlan.assignments kidEng.id = [actEngMon, actEngWed] := by decide
    rw [computeFinancials_perKid engPlan true kidEng (by decide), hacts]
    have h1 : ("unicor-english" : String) ≠ "" := by decide
    have h2 : (actEngMon.bundleKey = some "psychomotricity") = False := by
      simp [actEngMon]
    have h3 : (actEngWed.bundleKey = some "psychomotricity") = False := by
      simp [actEngWed]
    have h4 : ((40 : Rat) ≠ 0) := by norm_num
    have h5 : ((none : Option String) = some "psychomotricity") = False := by simp
    simp only [bundleCount, List.countP_cons, List.countP_nil, h2, h3, decide_False]
    norm_num [monthContrib, termContrib, matContrib, bundleTermFee, matFee,
      actEngMon, actEngWed, h1, h4, h5]

/-- Witness for C4 at the concrete shared-key plan. -/
theorem c4_materials_once_witness :
    ∃ agg, (computeFinancials engPlan true).perKid kidEng.id = some agg ∧
      agg.materials
        = ((chargedKeys [] (kidActs engPlan.assignments kidEng.id)).map feeOfKey).sum ∧
      (chargedKeys [] (kidActs engPlan.assignments kidEng.id)).Nodup ∧
      (∀ key, key ∈ chargedKeys [] (kidActs engPlan.assignments kidEng.id) ↔
        ∃ a ∈ kidActs engPlan.assignments kidEng.id, ∃ f : Rat, matFee a = some (key, f)) :=
  c4_materials_once.1 engPlan true kidEng (by decide)

/-! ## Claim C2 -/

/-- C2, counterexample: the raw text `"42"` does not parse as the plan
document schema (`decodePlanDoc` rejects it), yet `importPlan` signals no
error and replaces the active plan with the parsed value — the previously
active plan does not remain in effect, refuting the claimed wholesale
schema validation. -/
theorem c2_counterexample :
    decodePlanDoc (Json.num 42) = none ∧
    parseJson "42" = some (Json.num 42) ∧
    importPlan "42" emptyPlanJson = (Json.num 42, false) ∧
    Json.num 42 ≠ emptyPlanJson := by
  refine ⟨rfl, rfl, rfl, ?_⟩
  intro h
  exact Json.noConfusion h

/-- C2 (amended): `importPlan` rejects exactly the raw texts that are not
valid JSON — for those it signals the invalid-document error and leaves the
previous plan in effect; any text that parses as JSON is applied wholesale
as the new plan with no schema validation.  In both cases the plan is
either fully replaced or untouched (no partial import). -/
theorem c2_import_no_validation :
    ∀ (text : String) (prev : Json),
      (parseJson text = none → importPlan text prev = (prev, true)) ∧
      (∀ j, parseJson text = some j → importPlan text prev = (j, false)) := by
  intro text prev
  constructor
  · intro h
    unfold importPlan
    rw [h]
  · intro j h
    unfold importPlan
    rw [h]

/-- Witness for C2 (amended): a non-JSON text is rejected with the plan
kept; the JSON text `"42"` is applied unvalidated. -/
theorem c2_import_no_validation_witness :
    importPlan "not json" emptyPlanJson = (emptyPlanJson, true) ∧
    importPlan "42" emptyPlanJson = (Json.num 42, false) :=
  ⟨(c2_import_no_validation "not json" emptyPlanJson).1 rfl,
   (c2_import_no_validation "42" emptyPlanJson).2 (Json.num 42) rfl⟩

/-! ## Claim C9 -/

theorem kidStep_none (norm : Bool) (seen : List String) (act : Activity) :
    kidStep norm (none, seen) act = (none, seen) := rfl

theorem foldKid_none (norm : Bool) :
    ∀ (acts : List Activity) (seen : List String),
      acts.foldl (kidStep norm) (none, seen) = (none, seen) := by
  intro acts
  induction acts with
  | nil => intro seen; rfl
  | cons act r ih =>
    intro seen
    rw [List.foldl_cons, kidStep_none, ih]

theorem bundleStep_none (norm : Bool) (counts : String → Nat) (K : String) :
    bundleStep norm counts K none = none := by
  unfold bundleStep
  split <;> rfl

theorem foldBundle_none (norm : Bool) (counts : String → Nat) (K : String) :
    ∀ kids : List Kid,
      kids.foldl (fun a _ => bundleStep norm counts K a) none = none := by
  intro kids
  induction kids with
  | nil => rfl
  | cons kid r ih => rw [List.foldl_cons, bundleStep_none, ih]

theorem bundleStep_congr (norm : Bool) (c1 c2 : String → Nat) (K : String)
    (h : c1 K = c2 K) : ∀ a, bundleStep norm c1 K a = bundleStep norm c2 K a := by
  intro a
  unfold bundleStep
  rw [h]

/-- The whole financial output depends on the plan only through the roster
and each kid's assigned-activity sequence. -/
theorem computeFinancials_congr (p1 p2 : PlanState) (norm : Bool)
    (hkids : p1.kids = p2.kids)
    (hacts : ∀ K, p1.kids.any (fun k => k.id = K) = true →
      kidActs p1.assignments K = kidActs p2.assignments K) :
    computeFinancials p1 norm = computeFinancials p2 norm := by
  have hperKid : (bundlePass norm p1.kids (psychoScan p1.assignments)
        (mainPass norm p1.assignments (initFinState p1.kids))).perKid
      = (bundlePass norm p2.kids (psychoScan p2.assignments)
        (mainPass norm p2.assignments (initFinState p2.kids))).perKid := by
    funext K
    rw [bundlePass_proj, bundlePass_proj, ← hkids]
    by_cases hex : p1.kids.any (fun k => k.id = K) = true
    · have hactK := hacts K hex
      have hm : (mainPass norm p1.assignments (initFinState p1.kids)).perKid K
          = (mainPass norm p2.assignments (initFinState p1.kids)).perKid K := by
        have h1 := mainPass_proj norm K p1.assignments (initFinState p1.kids)
        have h2 := mainPass_proj norm K p2.assignments (initFinState p1.kids)
        have : slotOf (mainPass norm p1.assignments (initFinState p1.kids)) K
            = slotOf (mainPass norm p2.assignments (initFinState p1.kids)) K := by
          rw [h1, h2, hactK]
        exact congrArg Prod.fst this
      rw [hm]
      have hc : psychoScan p1.assignments K = psychoScan p2.assignments K := by
        rw [psychoScan_eval, psychoScan_eval, hacts K hex]
      have hfun : (fun (a : Option Agg) (_ : Kid) => bundleStep norm (psychoScan p1.assignments) K a)
          = fun (a : Option Agg) (_ : Kid) => bundleStep norm (psychoScan p2.assignments) K a := by
        funext a _
        exact bundleStep_congr norm _ _ K hc a
      rw [hfun]
    · have hnone : ∀ assignments : List (String × List String),
          (mainPass norm assignments (initFinState p1.kids)).perKid K = none := by
        intro assignments
        have h1 := mainPass_proj norm K assignments (initFinState p1.kids)
        rw [initFinState_slot, if_neg hex] at h1
        rw [foldKid_none] at h1
        exact congrArg Prod.fst h1
      rw [hnone p1.assignments, hnone p2.assignments, foldBundle_none, foldBundle_none]
  show Financials.mk _ _ _ _ = Financials.mk _ _ _ _
  simp only [hperKid]
  rw [hkids]

theorem lookupAssign_append_junk (assignments : List (String × List String))
    (actId aid : String) (ks : List String) (h : aid ≠ actId) :
    lookupAssign (assignments ++ [(actId, ks)]) aid = lookupAssign assignments aid := by
  unfold lookupAssign
  rw [List.find?_append]
  have hnone : List.find? (fun e => decide (e.1 = aid)) [(actId, ks)] = none := by
    simp [List.find?, Ne.symm h]
  rw [hnone]
  cases List.find? (fun e => decide (e.1 = aid)) assignments <;> rfl

theorem lookupAssign_scrub (assignments : List (String × List String)) (K aid : String) :
    lookupAssign (assignments.map fun e => (e.1, e.2.filter fun i => i ≠ K)) aid
      = (lookupAssign assignments aid).map fun l => l.filter fun i => i ≠ K := by
  induction assignments with
  | nil => rfl
  | cons e rest ih =>
    unfold lookupAssign at ih ⊢
    by_cases he : e.1 = aid
    · simp [List.find?_cons, he]
    · simp only [List.map_cons]
      rw [List.find?_cons_of_neg _ (by simp [he]), List.find?_cons_of_neg _ (by simp [he])]
      exact ih

theorem selectedFor_append_junk (catalog : List Activity) (plan : PlanState)
    (kidId : String) (d : Day) (s : Slot) (actId : String) (ks : List String)
    (h : ∀ a ∈ catalog, a.id ≠ actId) :
    selectedFor catalog ⟨plan.kids, plan.assignments ++ [(actId, ks)]⟩ kidId d s
      = selectedFor catalog plan kidId d s := by
  unfold selectedFor
  apply List.filter_congr
  intro a ha
  have hassign : (PlanState.mk plan.kids (plan.assignments ++ [(actId, ks)])).assignments
      = plan.assignments ++ [(actId, ks)] := rfl
  rw [hassign, lookupAssign_append_junk _ _ _ _ (h a ha)]

theorem selectedFor_scrub (catalog : List Activity) (plan : PlanState)
    (kidId K : String) (d : Day) (s : Slot) (hk : kidId ≠ K) :
    selectedFor catalog (removeKid K plan) kidId d s
      = selectedFor catalog plan kidId d s := by
  unfold selectedFor
  apply List.filter_congr
  intro a _
  have hassign : (removeKid K plan).assignments
      = plan.assignments.map fun e => (e.1, e.2.filter fun i => i ≠ K) := rfl
  rw [hassign, lookupAssign_scrub]
  cases hl : lookupAssign plan.assignments a.id with
  | none => rfl
  | some l =>
    have hmem : (kidId ∈ l.filter fun i => i ≠ K) ↔ kidId ∈ l := by
      simp [List.mem_filter, hk]
    simp only [Option.map_some', Option.getD_some]
    rw [decide_eq_decide.mpr hmem]

theorem catMap_map {α β γ : Type} (f : β → List γ) (g : α → β) :
    ∀ l : List α, catMap f (l.map g) = catMap (fun x => f (g x)) l := by
  intro l
  induction l with
  | nil => rfl
  | cons x r ih => simp [catMap, ih]

theorem kidActs_append_junk (assignments : List (String × List String))
    (actId : String) (ks : List String) (K : String) (h : findActivity actId = none) :
    kidActs (assignments ++ [(actId, ks)]) K = kidActs assignments K := by
  unfold kidActs
  rw [catMap_append]
  have hjunk : catMap
      (fun entry : String × List String =>
        match findActivity entry.1 with
        | none => []
        | some act => (entry.2.filter fun i => i = K).map fun _ => act)
      [(actId, ks)] = [] := by
    rw [catMap, catMap]
    simp [h]
  rw [hjunk, List.append_nil]

theorem kidActs_scrub (assignments : List (String × List String)) (K Kp : String)
    (h : Kp ≠ K) :
    kidActs (assignments.map fun e => (e.1, e.2.filter fun i => i ≠ K)) Kp
      = kidActs assignments Kp := by
  unfold kidActs
  rw [catMap_map]
  apply catMap_congr
  intro e _
  cases hf : findActivity e.1 with
  | none => simp [hf]
  | some act =>
    simp only [hf]
    rw [List.filter_filter]
    have hpred : ∀ i ∈ e.2,
        (decide (i = Kp) && decide (i ≠ K)) = decide (i = Kp) := by
      intro i _
      by_cases hi : i = Kp <;> simp [hi, h]
    rw [List.filter_congr hpred]

theorem filter_ne_eq_self (kids : List Kid) (K : String) (h : ∀ k ∈ kids, k.id ≠ K) :
    (kids.filter fun k => k.id ≠ K) = kids :=
  List.filter_eq_self.mpr fun k hk => by simpa using h k hk

theorem listConflicts_append_junk (plan : PlanState) (actId : String) (ks : List String)
    (h : ∀ a ∈ ACTIVITIES, a.id ≠ actId) :
    listConflicts ⟨plan.kids, plan.assignments ++ [(actId, ks)]⟩ = listConflicts plan := by
  unfold listConflicts listConflictsWith
  apply catMap_congr
  intro kid _
  apply catMap_congr
  intro d _
  apply catMap_congr
  intro s _
  unfold conflictCell
  rw [selectedFor_append_junk ACTIVITIES plan kid.id d s actId ks h]

theorem listConflicts_scrub (plan : PlanState) (K : String)
    (h : ∀ k ∈ plan.kids, k.id ≠ K) :
    listConflicts (removeKid K plan) = listConflicts plan := by
  unfold listConflicts listConflictsWith
  have hkids : (removeKid K plan).kids = plan.kids := filter_ne_eq_self plan.kids K h
  rw [hkids]
  apply catMap_congr
  intro kid hkid
  apply catMap_congr
  intro d _
  apply catMap_congr
  intro s _
  unfold conflictCell
  rw [selectedFor_scrub ACTIVITIES plan kid.id K d s (h kid hkid)]

theorem computeFinancials_append_junk (plan : PlanState) (norm : Bool)
    (actId : String) (ks : List String) (h : findActivity actId = none) :
    computeFinancials ⟨plan.kids, plan.assignments ++ [(actId, ks)]⟩ norm
      = computeFinancials plan norm :=
  computeFinancials_congr _ _ norm rfl fun K _ =>
    kidActs_append_junk plan.assignments actId ks K h

theorem computeFinancials_scrub (plan : PlanState) (norm : Bool) (K : String)
    (h : ∀ k ∈ plan.kids, k.id ≠ K) :
    computeFinancials (removeKid K plan) norm = computeFinancials plan norm := by
  apply computeFinancials_congr
  · exact filter_ne_eq_self plan.kids K h
  · intro Kp hKp
    rw [List.any_eq_true] at hKp
    obtain ⟨k, hk, hkid⟩ := hKp
    have hkid2 : k.id = Kp := of_decide_eq_true hkid
    have hk2 := List.mem_filter.mp hk
    have hne : Kp ≠ K := hkid2 ▸ of_decide_eq_true hk2.2
    exact kidActs_scrub plan.assignments K Kp hne

/-- C9: `computeFinancials` and `listConflicts` are total functions of the
embedding, and invariant-violating plan data is inert: appending an
assignments entry whose activity id matches no catalog activity changes
neither the financial summary nor the conflict list, and scrubbing a child
id that is absent from the kids list out of every assignment list (which is
all `removeKid` does to the assignments of a plan whose roster never held
that id) changes neither output — such entries contribute nothing to any
per-child or grand total and produce no conflict record. -/
theorem c9_invariant_violations_inert :
    (∀ (plan : PlanState) (norm : Bool) (actId : String) (ks : List String),
        (∀ a ∈ ACTIVITIES, a.id ≠ actId) →
        computeFinancials ⟨plan.kids, plan.assignments ++ [(actId, ks)]⟩ norm
            = computeFinancials plan norm
          ∧ listConflicts ⟨plan.kids, plan.assignments ++ [(actId, ks)]⟩
            = listConflicts plan)
    ∧ (∀ (plan : PlanState) (norm : Bool) (K : String),
        (∀ k ∈ plan.kids, k.id ≠ K) →
        computeFinancials (removeKid K plan) norm = computeFinancials plan norm
          ∧ listConflicts (removeKid K plan) = listConflicts plan) := by
  constructor
  · intro plan norm actId ks h
    have hf : findActivity actId = none := by
      unfold findActivity
      exact List.find?_eq_none.mpr fun a ha => by simp [h a ha]
    exact ⟨computeFinancials_append_junk plan norm actId ks hf,
      listConflicts_append_junk plan actId ks h⟩
  · intro plan norm K h
    exact ⟨computeFinancials_scrub plan norm K h, listConflicts_scrub plan K h⟩

theorem c9_invariant_violations_inert_witness :
    ((∀ a ∈ ACTIVITIES, a.id ≠ "zzz")
      ∧ computeFinancials ⟨planC9.kids, planC9.assignments ++ [("zzz", ["k8a"])]⟩ true
          = computeFinancials planC9 true
      ∧ listConflicts ⟨planC9.kids, planC9.assignments ++ [("zzz", ["k8a"])]⟩
          = listConflicts planC9)
    ∧ ((∀ k ∈ planC9g.kids, k.id ≠ "ghost")
      ∧ computeFinancials (removeKid "ghost" planC9g) true = computeFinancials planC9g true
      ∧ listConflicts (removeKid "ghost" planC9g) = listConflicts planC9g) := by
  have h1 : ∀ a ∈ ACTIVITIES, a.id ≠ "zzz" := by decide
  have h2 : ∀ k ∈ planC9g.kids, k.id ≠ "ghost" := by decide
  refine ⟨⟨h1, ?_, ?_⟩, ⟨h2, ?_, ?_⟩⟩
  · exact (c9_invariant_violations_inert.1 planC9 true "zzz" ["k8a"] h1).1
  · exact (c9_invariant_violations_inert.1 planC9 true "zzz" ["k8a"] h1).2
  · exact (c9_invariant_violations_inert.2 planC9g true "ghost" h2).1
  · exact (c9_invariant_violations_inert.2 planC9g true "ghost" h2).2
